import Mathlib

/-!
Shallow embedding of `mdb2django_schema.py` (mdb2django): value conversion,
schema wrappers (fields, indexes, relationships), the fixture emitter and the
foreign-key dependency orderer, together with theorems checking the
specification's claims against these definitions.
-/

namespace Mdb2Django

/-! ## Value conversion (`ValueConversion`, module-level helpers) -/

/-- Split a character list at every character satisfying `p`. -/
def splitChars (p : Char → Bool) : List Char → List (List Char)
  | [] => [[]]
  | c :: rest =>
    let r := splitChars p rest
    if p c then [] :: r
    else
      match r with
      | t :: ts => (c :: t) :: ts
      | [] => [[c]]

/-- Python `s.split()`: split on whitespace runs, dropping empty tokens. -/
def pysplit (s : String) : List String :=
  ((splitChars (fun c => c.isWhitespace) s.data).filter (fun t => t ≠ [])).map
    (fun t => String.mk t)

/-- `MONTH_ABBRS = 'Jan Feb Mar Apr May Jun Jul Aug Sep Oct Nov Dec'.split()` -/
def MONTH_ABBRS : List String :=
  pysplit "Jan Feb Mar Apr May Jun Jul Aug Sep Oct Nov Dec"

/-- `'%02d' % n` for a nonnegative value: zero-pad to (at least) two digits. -/
def pad2 (n : Nat) : String :=
  if n < 10 then "0" ++ toString n else toString n

/-- A Java-side column value as classified by `java2python`'s `__class__`
dispatch: boxed integers, strings, booleans, dates (carried as their
`toString()` form) and null. -/
inductive JValue where
  | jint (n : Int)
  | jstr (s : String)
  | jbool (b : Bool)
  | jdate (s : String)
  | jnull
deriving DecidableEq

/-- A Python-side value produced by the conversion layer. -/
inductive PyValue where
  | pint (n : Int)
  | pstr (s : String)
  | pbool (b : Bool)
  | pnone
deriving DecidableEq

/-- The date branch of `java2python`:
`_, m_abbr, d, HMS, _, Y = value.toString().split()` followed by
`'%s-%02d-%s %s' % (Y, MONTH_ABBRS.index(m_abbr) + 1, d, HMS)`.
`none` models the exceptions raised on a wrong token count or an unknown
month abbreviation. -/
def java2pythonDate (s : String) : Option String :=
  match pysplit s with
  | [_, mAbbr, d, hms, _, y] =>
    match MONTH_ABBRS.findIdx? (fun a => a = mAbbr) with
    | some i => some (y ++ "-" ++ pad2 (i + 1) ++ "-" ++ d ++ " " ++ hms)
    | none => none
  | _ => none

/-- `pat` is an initial segment of the second list. -/
def beginsWith : List Char → List Char → Bool
  | [], _ => true
  | _ :: _, [] => false
  | p :: ps, c :: cs => p = c && beginsWith ps cs

/-- Worker for `replaceList`.  Each step consumes at least one character, so
fuel equal to the input length never runs out before the list is exhausted. -/
def replaceListAux (pat rep : List Char) : Nat → List Char → List Char
  | 0, l => l
  | fuel + 1, l =>
    match l with
    | [] => []
    | c :: rest =>
      if beginsWith pat (c :: rest) ∧ pat ≠ [] then
        rep ++ replaceListAux pat rep fuel (rest.drop (pat.length - 1))
      else
        c :: replaceListAux pat rep fuel rest

/-- Python `str.replace`: left-to-right, non-overlapping (for a nonempty
pattern). -/
def replaceList (pat rep l : List Char) : List Char :=
  replaceListAux pat rep l.length l

/-- The unicode branch of `java2python`:
`value.replace('\r\n', r'\r').replace('\t', r'\t')`. -/
def pyEscape (s : String) : String :=
  String.mk (replaceList ['\t'] ['\\', 't']
    (replaceList ['\r', '\n'] ['\\', 'r'] s.data))

/-- `ValueConversion.java2python`: unwrap boxed integers, escape strings,
unwrap booleans, reformat dates, pass everything else through, then apply
the custom conversion.  `none` models an exception. -/
def java2python (custom : String → String → PyValue → PyValue)
    (tn cn : String) : JValue → Option PyValue
  | .jint n => some (custom tn cn (.pint n))
  | .jstr s => some (custom tn cn (.pstr (pyEscape s)))
  | .jbool b => some (custom tn cn (.pbool b))
  | .jdate s => (java2pythonDate s).map (fun d => custom tn cn (.pstr d))
  | .jnull => some (custom tn cn .pnone)

/-- `ValueConversion.java2json`: like `java2python` but `None` becomes the
string `'null'`. -/
def java2json (custom : String → String → PyValue → PyValue)
    (tn cn : String) (v : JValue) : Option PyValue :=
  (java2python custom tn cn v).map (fun pv =>
    match pv with
    | .pnone => .pstr "null"
    | p => p)

/-- Python `unicode(value)` on the values the converter can produce. -/
def pyValueStr : PyValue → String
  | .pint n => toString n
  | .pstr s => s
  | .pbool b => if b then "True" else "False"
  | .pnone => "None"

/-- `ValueConversion.java2pgcopy`: booleans to `'ft'[value]`, `None` to the
PostgreSQL COPY escape `\N`, everything else via `unicode(...)`. -/
def java2pgcopy (custom : String → String → PyValue → PyValue)
    (tn cn : String) (v : JValue) : Option String :=
  (java2python custom tn cn v).map (fun pv =>
    match pv with
    | .pbool b => if b then "t" else "f"
    | .pnone => "\\N"
    | p => pyValueStr p)

/-- The default `custom_conversion=lambda t, c, v: v`. -/
def defaultConv : String → String → PyValue → PyValue := fun _ _ v => v

instance {ε α : Type} [DecidableEq ε] [DecidableEq α] :
    DecidableEq (Except ε α) := fun x y =>
  match x, y with
  | .ok a, .ok b =>
    if h : a = b then isTrue (by rw [h])
    else isFalse (fun hh => h (Except.ok.inj hh))
  | .error a, .error b =>
    if h : a = b then isTrue (by rw [h])
    else isFalse (fun hh => h (Except.error.inj hh))
  | .ok _, .error _ => isFalse (fun hh => Except.noConfusion hh)
  | .error _, .ok _ => isFalse (fun hh => Except.noConfusion hh)

/-! ## Schema wrappers (`Column`, `Index`, `Table`, `Field`, `Model`) -/

/-- `MEMO_LENGTH = 8190` -/
def MEMO_LENGTH : Nat := 8190

/-- A Jackcess column: name, type tag (`column.type.name()`), declared
length, and ordinal position (`column.columnIndex`). -/
structure Column where
  name : String
  type : String
  length : Nat
  columnIndex : Nat
deriving DecidableEq

/-- A Jackcess index: the names of the columns it covers, plus its
`isPrimaryKey()` / `isUnique()` results.  `none` models a (mock) index
object on which the queried attribute is absent, so that accessing it
raises `AttributeError`. -/
structure AccessIndex where
  columns : List String
  isPrimaryKeyAttr : Option Bool
  isUniqueAttr : Option Bool
deriving DecidableEq

/-- A Jackcess table: name, ordered columns, indexes. -/
structure AccessTable where
  name : String
  columns : List Column
  indexes : List AccessIndex
deriving DecidableEq

/-- `Model.single_column_indexes`: a dict from column name to index over the
single-column indexes; a Python dict comprehension keeps the last entry for
a duplicated key, so we look the name up in the reversed list. -/
def singleColumnIndexes (t : AccessTable) (cname : String) : Option AccessIndex :=
  ((t.indexes.filter (fun i => i.columns.length = 1)).reverse).find?
    (fun i => i.columns.headD "" = cname)

/-- `Field.primary_key`: `try: return self.index.isPrimaryKey() except
KeyError: return False`.  A missing dict key (`KeyError`) yields `false`;
an absent `isPrimaryKey` attribute raises `AttributeError`, which is not
caught. -/
def fieldPrimaryKeyE (t : AccessTable) (c : Column) : Except String Bool :=
  match singleColumnIndexes t c.name with
  | none => .ok false
  | some i =>
    match i.isPrimaryKeyAttr with
    | some b => .ok b
    | none => .error "AttributeError"

/-- A Model field: either a real `Field` wrapping a column, or the
synthesized `PrimaryKeyField` surrogate. -/
inductive ModelField where
  | surrogate
  | real (c : Column)
deriving DecidableEq

/-- `field.primary_key` (`PrimaryKeyField.primary_key = True`). -/
def mfPKE (t : AccessTable) : ModelField → Except String Bool
  | .surrogate => .ok true
  | .real c => fieldPrimaryKeyE t c

/-- `field.name`: `PrimaryKeyField.name = 'id'`; for a real field
`self.database.column2field_name(self.column.name, self.primary_key)`. -/
def mfNameE (c2f : String → Bool → String) (t : AccessTable) :
    ModelField → Except String String
  | .surrogate => .ok "id"
  | .real c => do
    let pk ← fieldPrimaryKeyE t c
    .ok (c2f c.name pk)

/-- `field.column.name`: `None` for the surrogate. -/
def mfColumnName : ModelField → Option String
  | .surrogate => none
  | .real c => some c.name

/-- `Model.fields`: sort the table's columns stably by
`key=lambda f: not f.primary_key` (equivalently: primary-key fields first,
source order preserved within each bucket), then prepend a
`PrimaryKeyField` when the first field is not a primary key.
`_field_list[0]` on a table with no columns raises `IndexError`. -/
def fieldsE (t : AccessTable) : Except String (List ModelField) := do
  let flagged ← t.columns.mapM (fun c => do
    let pk ← fieldPrimaryKeyE t c
    pure (c, pk))
  let sortedL := (flagged.filter (fun cp => cp.2)) ++ (flagged.filter (fun cp => !cp.2))
  match sortedL with
  | [] => .error "IndexError"
  | (_, pk0) :: _ =>
    let fl := sortedL.map (fun cp => ModelField.real cp.1)
    if pk0 then pure fl else pure (ModelField.surrogate :: fl)

/-! ### Assoc-list models of Python dicts -/

/-- Python dict assignment `d[k] = v`: replace in place, else append. -/
def dictInsert {α β : Type} [DecidableEq α] :
    List (α × β) → α → β → List (α × β)
  | [], k, v => [(k, v)]
  | (k0, v0) :: rest, k, v =>
    if k0 = k then (k0, v) :: rest else (k0, v0) :: dictInsert rest k v

/-- Python dict lookup `d[k]` (as an option). -/
def dictLookup {α β : Type} [DecidableEq α] (d : List (α × β)) (k : α) :
    Option β :=
  (d.find? (fun kv => kv.1 = k)).map (fun kv => kv.2)

/-- `defaultdict(set)`-style `d[k].add(v)`. -/
def multiAdd {α β : Type} [DecidableEq α] [DecidableEq β] :
    List (α × List β) → α → β → List (α × List β)
  | [], k, v => [(k, [v])]
  | (k0, vs) :: rest, k, v =>
    if k0 = k then (k0, if v ∈ vs then vs else vs ++ [v]) :: rest
    else (k0, vs) :: multiAdd rest k v

/-- `Model.fields_by_column_name`: `dict((field.column.name, field) for
field in self.fields)` — note the surrogate contributes key `None`. -/
def fieldsByColumnNameE (t : AccessTable) :
    Except String (List (Option String × ModelField)) := do
  let fl ← fieldsE t
  pure (fl.foldl (fun d f => dictInsert d (mfColumnName f) f) [])

/-- `'%s' % x` for an optional string (`None` renders as `"None"`). -/
def optStr : Option String → String
  | none => "None"
  | some s => s

/-- Python `repr` of an optional string dict key. -/
def pyReprOptStr : Option String → String
  | none => "None"
  | some s => "'" ++ s ++ "'"

/-- `repr` of one entry of `fields_by_column_name`
(`<Field model.name>` is `Field.__repr__`). -/
def dictEntryRepr (c2f : String → Bool → String) (t : AccessTable)
    (mname : String) (kv : Option String × ModelField) :
    Except String String := do
  let nm ← mfNameE c2f t kv.2
  pure (pyReprOptStr kv.1 ++ ": <Field " ++ mname ++ "." ++ nm ++ ">")

/-- `repr` of the `fields_by_column_name` dict. -/
def dictReprE (c2f : String → Bool → String) (t : AccessTable)
    (mname : String) (d : List (Option String × ModelField)) :
    Except String String := do
  let entries ← d.mapM (dictEntryRepr c2f t mname)
  pure ("\x7b" ++ String.intercalate ", " entries ++ "\x7d")

/-- `Model.get_field_by_column`: look the column's name up in
`fields_by_column_name`; a missing key is re-raised as a `KeyError` whose
message carries the column name, the model name, and the full mapping. -/
def getFieldByColumn (c2f : String → Bool → String) (t : AccessTable)
    (mname : String) (cname : String) : Except String ModelField := do
  let d ← fieldsByColumnNameE t
  match dictLookup d (some cname) with
  | some f => .ok f
  | none => do
    let rep ← dictReprE c2f t mname d
    .error ("No column name \"" ++ cname ++ "\" in table \"" ++ mname ++
      "\"; fields = " ++ rep)

/-- The default `column2field_name=lambda c, pk: c`. -/
def defaultC2F : String → Bool → String := fun c _ => c

/-! ### `camelcase2english` and the field attribute list -/

/-- `CAMELCASE2EN_RE.sub(r'\1 \2', s)`: insert a space between a lowercase
letter and the uppercase letter following it.  (No match can start at the
uppercase letter, so continuing at it is the same as continuing after the
matched pair.) -/
def camelSub : List Char → List Char
  | a :: b :: rest =>
    if a.isLower ∧ b.isUpper then a :: ' ' :: camelSub (b :: rest)
    else a :: camelSub (b :: rest)
  | l => l

/-- `'%s%s' % (part[0].upper(), part[1:])`; an empty part raises
`IndexError`. -/
def titleFirst (s : String) : Except String String :=
  match s.data with
  | [] => .error "IndexError"
  | ch :: rest => .ok (String.mk (ch.toUpper :: rest))

/-- Python `s.split(sep)` with an explicit separator keeps empty pieces. -/
def splitOnChar (sep : Char) (l : List Char) : List (List Char) :=
  splitChars (fun c => c = sep) l

/-- `camelcase2english`: insert spaces at lower/upper boundaries, turn
underscores into spaces, split on single spaces and capitalize each part. -/
def camelcase2english (s : String) : Except String String := do
  let expanded := camelSub s.data
  let replaced := replaceList ['_'] [' '] expanded
  let parts := (splitOnChar ' ' replaced).map (fun t => String.mk t)
  let titled ← parts.mapM titleFirst
  pure (String.intercalate " " titled)

/-- The data of a resolved foreign key as used by `Field.attrs`:
`relation.from_field.model.name` and `relation.from_field.name`. -/
structure FKInfo where
  fromModelName : String
  fromFieldName : String
deriving DecidableEq

/-- The leading attributes of `Field.attrs`: the ForeignKey branch (target
model, optional `to_field`, verbose name) or the plain branch (verbose
name, optional `max_length`). -/
def attrsBase (fk : Option FKInfo) (c : Column) (vn : String) : List String :=
  match fk with
  | some rel =>
    [rel.fromModelName] ++
    (if rel.fromFieldName ≠ "id" then
      ["to_field='" ++ rel.fromFieldName ++ "'"] else []) ++
    ["verbose_name=_(u'" ++ vn ++ "')"]
  | none =>
    ["_(u'" ++ vn ++ "')"] ++
    (if c.type = "TEXT" ∧ c.length ≠ MEMO_LENGTH then
      ["max_length=" ++ toString c.length] else [])

/-- The `try`-block of `Field.attrs`: primary-key / index / unique markers.
Only `KeyError` is caught (`except KeyError: pass`), so a missing dict key
yields no markers, while an absent `isUnique` attribute raises
`AttributeError`. -/
def attrsMarkers (t : AccessTable) (c : Column) (pk : Bool) :
    Except String (List String) :=
  if pk then .ok ["primary_key=True"]
  else
    match singleColumnIndexes t c.name with
    | none => .ok []
    | some idx =>
      match idx.isUniqueAttr with
      | some u => .ok (["db_index=True"] ++ if u then ["unique=True"] else [])
      | none => .error "AttributeError"

/-- The trailing `db_column` attribute, emitted when the destination name
differs from the source column name. -/
def attrsDbColumn (name : String) (c : Column) : List String :=
  if name ≠ c.name then ["db_column='" ++ c.name ++ "'"] else []

/-- `Field.attrs` as a whole.  The first possible exception while the
generator is consumed is an `AttributeError` out of `self.primary_key`
(reached through `self.name`), then an `IndexError` out of
`camelcase2english`, then the marker block. -/
def fieldAttrs (fk : Option FKInfo) (c2f : String → Bool → String)
    (t : AccessTable) (c : Column) : Except String (List String) := do
  let pk ← fieldPrimaryKeyE t c
  let name := c2f c.name pk
  let vn ← camelcase2english name
  let markers ← attrsMarkers t c pk
  pure (attrsBase fk c vn ++ markers ++ attrsDbColumn name c)

/-- `Field.field_class`: dispatch on the foreign-key flag and the source
type tag; an unrecognized tag falls off the end of the `if` chain and
yields Python `None`. -/
def fieldClassE (fk : Bool) (t : AccessTable) (c : Column) :
    Except String (Option String) := do
  if fk then pure (some "ForeignKey")
  else if c.type = "TEXT" then
    pure (some (if c.length = MEMO_LENGTH then "TextField" else "CharField"))
  else if c.type = "INT" ∨ c.type = "LONG" then do
    let pk ← fieldPrimaryKeyE t c
    pure (some (if pk then "AutoField" else "IntegerField"))
  else if c.type = "BOOLEAN" then pure (some "BooleanField")
  else if c.type = "SHORT_DATE_TIME" then pure (some "DateTimeField")
  else pure none

/-- The `forloop` rendering inside `FieldBase.as_python`: every attribute
line ends with a comma except the last one, which closes the paren. -/
def attachCommaParen : List String → List String
  | [] => []
  | [a] => ["        " ++ a ++ ")"]
  | a :: rest => ("        " ++ a ++ ",") :: attachCommaParen rest

/-- `field.as_python()`: `PrimaryKeyField.as_python` returns `()`;
`FieldBase.as_python` yields the `name = models.Class(` line followed by
the attribute lines. -/
def mfAsPython (fk : Option FKInfo) (c2f : String → Bool → String)
    (t : AccessTable) : ModelField → Except String (List String)
  | .surrogate => .ok []
  | .real c => do
    let pk ← fieldPrimaryKeyE t c
    let name := c2f c.name pk
    let fc ← fieldClassE fk.isSome t c
    let ats ← fieldAttrs fk c2f t c
    pure (("    " ++ name ++ " = models." ++ optStr fc ++ "(") ::
      attachCommaParen ats)

/-- Python `s.lower()`. -/
def pyLower (s : String) : String :=
  String.mk (s.data.map Char.toLower)

/-- `Model.multicolumn_indexes`. -/
def multicolumnIndexes (t : AccessTable) : List AccessIndex :=
  t.indexes.filter (fun i => 1 < i.columns.length)

/-- `Model.db_table` (with the hardcoded default `app_name='myapp'`). -/
def dbTable (keep : Bool) (t : AccessTable) (mname : String) : String :=
  if keep then t.name else "myapp_" ++ pyLower mname

/-- The `class Meta:` body of `Model.as_python`. -/
def modelMeta (keep : Bool) (schema : Option String)
    (c2f : String → Bool → String) (t : AccessTable) (mname : String) :
    Except String (List String) := do
  let dbLines :=
    if keep ∨ schema.isSome then
      let dbt := dbTable keep t mname
      let dbt2 := match schema with
        | some sch => sch ++ "\\\".\\\"" ++ dbt
        | none => dbt
      ["        db_table = '" ++ dbt2 ++ "'"]
    else []
  let mc := multicolumnIndexes t
  let mcLines ←
    if mc.isEmpty then pure []
    else do
      let rows ← mc.mapM (fun idx => do
        let nms ← idx.columns.mapM (fun cn => do
          let f ← getFieldByColumn c2f t mname cn
          mfNameE c2f t f)
        pure ("            (" ++
          String.intercalate " " (nms.map (fun n => "'" ++ n ++ "',")) ++
          "),"))
      pure (["        unique_together = ("] ++ rows ++ ["        )"])
  let vn ← camelcase2english mname
  pure (dbLines ++ mcLines ++
    ["        verbose_name = _(u'" ++ vn ++ "')",
     "        verbose_name_plural = _(u'" ++ vn ++ "s')"])

/-- `Model.as_python` given an already-computed field list (the class
header, one `as_python` block per field in stored order, then the `Meta`
block). -/
def modelAsPythonF (keep : Bool) (schema : Option String)
    (c2f : String → Bool → String) (fkOf : ModelField → Option FKInfo)
    (t : AccessTable) (mname : String) (fl : List ModelField) :
    Except String (List String) := do
  let fieldLines ← fl.mapM (fun f => mfAsPython (fkOf f) c2f t f)
  let meta ← modelMeta keep schema c2f t mname
  pure ("" :: ("class " ++ mname ++ "(models.Model):") ::
    (fieldLines.flatten ++ ["", "    class Meta:"] ++ meta))

/-- `Model.as_python` (fields taken from `Model.fields`). -/
def modelAsPython (keep : Bool) (schema : Option String)
    (c2f : String → Bool → String) (fkOf : ModelField → Option FKInfo)
    (t : AccessTable) (mname : String) : Except String (List String) := do
  let fl ← fieldsE t
  modelAsPythonF keep schema c2f fkOf t mname fl

/-! ## Relationship index (`Relationship`, `DatabaseWrapper`) -/

/-- The identity of a resolved `Field`: its owning model's table and its
column name.  Fields are memoized per model, so Python object identity
coincides with this pair. -/
structure FieldRef where
  table : String
  column : String
deriving DecidableEq

/-- One declared Access relationship, as surfaced by
`db.getRelationships`. -/
structure AccessRel where
  toTable : String
  toColumns : List String
  fromTable : String
  fromColumns : List String
deriving DecidableEq

/-- A resolved `Relationship`: its `to_field` (child) and `from_field`
(parent). -/
structure PyRel where
  to_field : FieldRef
  from_field : FieldRef
deriving DecidableEq

/-- The source database as seen by the relationship machinery: the table
name list, table lookup (`getTable`), and pairwise declared relationships
(`getRelationships`). -/
structure MiniDB where
  tableNames : List String
  getTable : String → Option AccessTable
  getRels : String → String → List AccessRel

/-- Resolve one endpoint as `Relationship.__init__` does:
`database.get_model_by_table(table).get_field_by_column(columns[0])`.
A missing table or column raises `KeyError`; an empty column list raises
`IndexError`. -/
def resolveField (db : MiniDB) (tname : String) (cols : List String) :
    Except String FieldRef := do
  match db.getTable tname with
  | none => .error "KeyError: no model for table"
  | some t =>
    match cols with
    | [] => .error "IndexError"
    | c0 :: _ => do
      let d ← fieldsByColumnNameE t
      match dictLookup d (some c0) with
      | some _ => .ok ⟨tname, c0⟩
      | none => .error "KeyError: no column"

/-- `Relationship.__init__`: resolve the leading `to` and `from` columns. -/
def mkRelationship (db : MiniDB) (ar : AccessRel) : Except String PyRel := do
  let tf ← resolveField db ar.toTable ar.toColumns
  let ff ← resolveField db ar.fromTable ar.fromColumns
  .ok ⟨tf, ff⟩

/-- `DatabaseWrapper._add_relationships`: peel the head table off and pair
it with every remaining table, then recurse on the remainder; each
resolved relationship is stored into the shared `all` dict keyed by
`(to_field, from_field)`. -/
def addRelationships (db : MiniDB) :
    List String → List ((FieldRef × FieldRef) × PyRel) →
    Except String (List ((FieldRef × FieldRef) × PyRel))
  | [], a => .ok a
  | [_], a => .ok a
  | t0 :: rest, a => do
    let here ← (rest.flatMap (fun tn => db.getRels t0 tn)).mapM
      (fun ar => mkRelationship db ar)
    let a2 := here.foldl
      (fun d r => dictInsert d (r.to_field, r.from_field) r) a
    addRelationships db rest a2

/-- `DatabaseWrapper.get_relationships`: build the `all` dict, then derive
the forward map (`to_field` → relationship) and the reverse map
(`from_field` → set of relationships). -/
def getRelationships (db : MiniDB) :
    Except String (List (FieldRef × PyRel) × List (FieldRef × List PyRel)) := do
  let allL ← addRelationships db db.tableNames []
  let forward := allL.foldl (fun d kv => dictInsert d kv.2.to_field kv.2) []
  let reverse := allL.foldl (fun d kv => multiAdd d kv.2.from_field kv.2) []
  .ok (forward, reverse)

/-! ## Fixture emitter (`Model.output_fixture`) -/

/-- One emitted fixture record: its primary key value, the qualified model
identifier, and the field-name → converted-value dict. -/
structure FixtureRecord where
  pk : PyValue
  model : String
  fields : List (String × PyValue)
deriving DecidableEq

/-- Turn a raised-exception (`none`) result into an `Except` error. -/
def liftOpt {α : Type} (msg : String) : Option α → Except String α
  | some a => .ok a
  | none => .error msg

/-- `Model.primary_key`: the first field with the primary-key flag;
`ValueError` if none. -/
def firstPK (t : AccessTable) : List ModelField → Except String ModelField
  | [] => .error "ValueError: No primary key"
  | f :: rest => do
    let pk ← mfPKE t f
    if pk then .ok f else firstPK t rest

/-- The primary-key part of one `output_fixture` row: a real primary-key
field reads the backing column's value (`values_list[pk_index]`) and
converts it; the surrogate (whose `column` lacks `columnIndex`, raising
`AttributeError` caught by the emitter) falls back to a zero-based
counter, here the row index `i`. -/
def fixturePk (custom : String → String → PyValue → PyValue)
    (t : AccessTable) (i : Nat) (values : List JValue) :
    ModelField → Except String PyValue
  | .real c =>
    match values.get? c.columnIndex with
    | some v => liftOpt "conversion error" (java2json custom t.name c.name v)
    | none => .error "IndexError"
  | .surrogate => .ok (.pint (i : Int))

/-- One row of `Model.output_fixture`: the primary key (see `fixturePk`),
the qualified model identifier, and the fields dict built from the
`(field_name, value)` pairs of `zip(row.keySet(), values_list)` whose key
differs from `self.primary_key.name`. -/
def fixtureRecord (custom : String → String → PyValue → PyValue)
    (appName : String) (t : AccessTable) (mname : String)
    (pkf : ModelField) (pknm : String) (i : Nat)
    (row : List (String × JValue)) : Except String FixtureRecord :=
  fixturePk custom t i (row.map (fun kv => kv.2)) pkf >>= fun pkv =>
  (row.filter (fun kv => kv.1 ≠ pknm)).mapM (fun kv => do
    let pv ← liftOpt "conversion error" (java2json custom t.name kv.1 kv.2)
    pure (kv.1, pv)) >>= fun pairs =>
  .ok ⟨pkv, appName ++ "." ++ pyLower mname,
    pairs.foldl (fun d kv => dictInsert d kv.1 kv.2) []⟩

/-- `Model.output_fixture`, at the level of emitted records (the JSON
serialization itself is external). -/
def outputFixtureRecords (custom : String → String → PyValue → PyValue)
    (c2f : String → Bool → String) (appName : String) (t : AccessTable)
    (mname : String) (rows : List (List (String × JValue))) :
    Except String (List FixtureRecord) := do
  let fl ← fieldsE t
  let pkf ← firstPK t fl
  let pknm ← mfNameE c2f t pkf
  (rows.enum).mapM (fun p => fixtureRecord custom appName t mname pkf pknm p.1 p.2)

/-! ## Dependency orderer (`DatabaseWrapper.order_models`) -/

/-- One wrapped model as the orderer sees it: an identity, the resolved
destination name (`None` = excluded by the name-mapping function) and the
identities of its `related_models` (the models its foreign keys point
at). -/
structure PyModel where
  id : Nat
  name : Option String
  related : List Nat
deriving DecidableEq

/-- `model.related_models` by model identity. -/
def gOf (M : List PyModel) (i : Nat) : List Nat :=
  match M.find? (fun m => m.id = i) with
  | some m => m.related
  | none => []

/-- `model.name` by model identity. -/
def nameOf (M : List PyModel) (i : Nat) : Option String :=
  match M.find? (fun m => m.id = i) with
  | some m => m.name
  | none => none

/-- The identities of a model list. -/
def idsOf (M : List PyModel) : List Nat := M.map (fun m => m.id)

/-- The `for model in models:` loop of `order_models`, with `next` standing
for the nested recursive call on `model.related_models`. -/
def orderModelsGo (g : Nat → List Nat) (names : Nat → Option String)
    (next : List Nat → Finset Nat → List Nat × Finset Nat) :
    List Nat → Finset Nat → List Nat × Finset Nat
  | [], done => ([], done)
  | m :: ms, done =>
    if (names m).isNone then orderModelsGo g names next ms done
    else if m ∈ done then orderModelsGo g names next ms done
    else
      let r1 := next (g m) (insert m done)
      let r2 := orderModelsGo g names next ms r1.2
      (r1.1 ++ m :: r2.1, r2.2)

/-- `DatabaseWrapper.order_models`: depth-first emission, parents before
the model, with the shared mutable visited set `done` threaded through
explicitly (the Python function keeps it in a mutable default argument).
The generator output and the final state of `done` are returned together.
Python needs no fuel (each nested call first adds a fresh model to
`done`); starting fuel at the number of models makes the truncation
branch unreachable, as once fuel is exhausted `done` already covers every
model and every element would be skipped anyway. -/
def orderModels (g : Nat → List Nat) (names : Nat → Option String) :
    Nat → List Nat → Finset Nat → List Nat × Finset Nat
  | 0, _, done => ([], done)
  | fuel + 1, ms, done => orderModelsGo g names (orderModels g names fuel) ms done

/-- `order_models(self.models)` with a fresh visited set, returning output
and final visited set. -/
def orderModelsTop (M : List PyModel) : List Nat × Finset Nat :=
  orderModels (gOf M) (nameOf M) M.length (idsOf M) ∅

/-- `DatabaseWrapper.ordered_models = list(self.order_models(self.models))`. -/
def orderedModels (M : List PyModel) : List Nat :=
  (orderModelsTop M).1

/-! ## Derived helpers used by the proofs -/

/-- The primary-key flag as a total boolean, meaningful when every index
carries its `isPrimaryKey` attribute (the situation for real Jackcess
indexes); `fieldPrimaryKeyE_eq_pkB` relates it to the faithful version. -/
def pkB (t : AccessTable) (c : Column) : Bool :=
  match singleColumnIndexes t c.name with
  | some i => i.isPrimaryKeyAttr.getD false
  | none => false

/-- `field.primary_key` as a total boolean (see `pkB`). -/
def mfPKb (t : AccessTable) : ModelField → Bool
  | .surrogate => true
  | .real c => pkB t c

/-- Build a Python dict from a pair list in insertion order. -/
def buildDict {α β : Type} [DecidableEq α] (pairs : List (α × β)) :
    List (α × β) :=
  pairs.foldl (fun d kv => dictInsert d kv.1 kv.2) []

/-- `s` contains `sub` as a substring. -/
def strContains (s sub : String) : Prop :=
  ∃ a b : String, s = a ++ sub ++ b

/-- Single step of reachability along `related_models` edges: `b` is a
direct foreign-key parent of `a`. -/
def RelStep (g : Nat → List Nat) (a b : Nat) : Prop := b ∈ g a

/-- `b` is reachable from `a` in one or more `related_models` steps. -/
def Reaches (g : Nat → List Nat) : Nat → Nat → Prop :=
  Relation.TransGen (RelStep g)

/-- The acyclicity of the foreign-key graph over models. -/
def AcyclicG (g : Nat → List Nat) : Prop := ∀ x, ¬ Reaches g x x

/-- The per-position topological invariant of an emitted sequence: each
emitted model's named parents already lie in the `black` set accumulated
so far. -/
def topoOK (g : Nat → List Nat) (names : Nat → Option String) :
    List Nat → List Nat → Prop
  | _, [] => True
  | black, x :: rest =>
    (∀ p ∈ g x, (names p).isSome → p ∈ black) ∧ topoOK g names (x :: black) rest

/-- The bookkeeping facts relating one `order_models` call to its result
`r`: the visited set only grows, and exactly by the emitted models; the
output is fresh, duplicate-free, entirely named and inside the model
universe `U`; and every named input model ends up visited. -/
def OMSpec (names : Nat → Option String) (U : Finset Nat)
    (ms : List Nat) (done : Finset Nat) (r : List Nat × Finset Nat) : Prop :=
  done ⊆ r.2 ∧
  (∀ x, x ∈ r.2 ↔ x ∈ done ∨ x ∈ r.1) ∧
  (∀ x ∈ r.1, x ∉ done) ∧
  r.1.Nodup ∧
  (∀ x ∈ r.1, (names x).isSome ∧ x ∈ U) ∧
  (∀ x ∈ ms, (names x).isSome → x ∈ r.2)

/-! ## Concrete demonstration data -/

/-- An `Article(title, reporter)` table with no indexes (as in the
repository's unit tests). -/
def demoArticle : AccessTable :=
  ⟨"Article", [⟨"title", "TEXT", 5, 0⟩, ⟨"reporter", "TEXT", 5, 1⟩], []⟩

/-- A `Reporter(title, id)` table whose `id` column carries a unique
primary-key index. -/
def demoReporter : AccessTable :=
  ⟨"Reporter", [⟨"title", "TEXT", 5, 0⟩, ⟨"id", "INT", 4, 1⟩],
   [⟨["id"], some true, some true⟩]⟩

/-- A `Note(id, title)` table with no indexes at all: its `id` column is an
ordinary column, and the model gets a synthesized surrogate key. -/
def noteTable : AccessTable :=
  ⟨"Note", [⟨"id", "TEXT", 5, 0⟩, ⟨"title", "TEXT", 5, 1⟩], []⟩

/-- A table whose single-column index object lacks the `isPrimaryKey` /
`isUnique` attributes. -/
def attrlessTable : AccessTable :=
  ⟨"Bad", [⟨"code", "TEXT", 5, 0⟩], [⟨["code"], none, none⟩]⟩

/-- The `Reporter(id)` table of the relationship example. -/
def relReporter : AccessTable := ⟨"Reporter", [⟨"id", "TEXT", 5, 0⟩], []⟩

/-- The `Article(reporter_id)` table of the relationship example. -/
def relArticle : AccessTable := ⟨"Article", [⟨"reporter_id", "TEXT", 5, 0⟩], []⟩

/-- The two-table database with exactly one declared relationship
`Article.reporter_id → Reporter.id`. -/
def exampleDB : MiniDB :=
  ⟨["Reporter", "Article"],
   fun n =>
     if n = "Reporter" then some relReporter
     else if n = "Article" then some relArticle
     else none,
   fun a b =>
     if a = "Reporter" ∧ b = "Article" then
       [⟨"Article", ["reporter_id"], "Reporter", ["id"]⟩]
     else []⟩

/-- The one relationship of `exampleDB`, resolved. -/
def exampleRel : PyRel := ⟨⟨"Article", "reporter_id"⟩, ⟨"Reporter", "id"⟩⟩

/-- Two models, `Article` (id 0) referencing `Reporter` (id 1). -/
def demoModels : List PyModel :=
  [⟨0, some "Article", [1]⟩, ⟨1, some "Reporter", []⟩]

/-! ## General helper lemmas -/

theorem mapM_ok_of_forall {α β : Type} (F : α → Except String β) (G : α → β)
    (l : List α) (h : ∀ a ∈ l, F a = .ok (G a)) :
    l.mapM F = .ok (l.map G) := by
  induction l with
  | nil => rfl
  | cons a l ih =>
    have ha : F a = .ok (G a) := h a (by simp)
    have hl := ih (fun x hx => h x (by simp [hx]))
    simp only [List.mapM_cons, List.map_cons, ha, hl]
    rfl

theorem mapM_ok_length {α β : Type} {F : α → Except String β} :
    ∀ {l : List α} {r : List β}, l.mapM F = .ok r → r.length = l.length := by
  intro l
  induction l with
  | nil => intro r h; simp only [List.mapM_nil] at h; cases h; rfl
  | cons a l ih =>
    intro r h
    rw [List.mapM_cons] at h
    cases hF : F a with
    | error e => rw [hF] at h; simp [Bind.bind, Except.bind] at h
    | ok b =>
      rw [hF] at h
      cases hl : l.mapM F with
      | error e =>
        rw [hl] at h; simp [Bind.bind, Except.bind, Pure.pure] at h
      | ok bs =>
        rw [hl] at h
        simp only [Bind.bind, Except.bind, Pure.pure, Except.pure] at h
        cases h
        simp [ih hl]

theorem mapM_ok_get {α β : Type} {F : α → Except String β} :
    ∀ {l : List α} {r : List β}, l.mapM F = .ok r →
      ∀ k a, l.get? k = some a → ∃ b, r.get? k = some b ∧ F a = .ok b := by
  intro l
  induction l with
  | nil => intro r h k a ha; simp at ha
  | cons x l ih =>
    intro r h k a ha
    rw [List.mapM_cons] at h
    cases hF : F x with
    | error e => rw [hF] at h; simp [Bind.bind, Except.bind] at h
    | ok b =>
      rw [hF] at h
      cases hl : l.mapM F with
      | error e => rw [hl] at h; simp [Bind.bind, Except.bind, Pure.pure] at h
      | ok bs =>
        rw [hl] at h
        simp only [Bind.bind, Except.bind, Pure.pure, Except.pure] at h
        cases h
        cases k with
        | zero => cases ha; exact ⟨b, rfl, hF⟩
        | succ k => exact ih hl k a ha

theorem dictLookup_cons {α β : Type} [DecidableEq α] (k0 : α) (v0 : β)
    (d : List (α × β)) (k' : α) :
    dictLookup ((k0, v0) :: d) k' =
      if k0 = k' then some v0 else dictLookup d k' := by
  by_cases h : k0 = k' <;> simp [dictLookup, List.find?, h]

theorem dictLookup_dictInsert {α β : Type} [DecidableEq α]
    (d : List (α × β)) (k k' : α) (v : β) :
    dictLookup (dictInsert d k v) k' =
      if k' = k then some v else dictLookup d k' := by
  induction d with
  | nil =>
    rw [show dictInsert ([] : List (α × β)) k v = [(k, v)] from rfl,
      dictLookup_cons]
    by_cases h : k = k'
    · simp [h]
    · have h' : ¬ k' = k := fun e => h e.symm
      simp [h, h', dictLookup, List.find?]
  | cons kv d ih =>
    obtain ⟨k0, v0⟩ := kv
    by_cases h0 : k0 = k
    · subst h0
      rw [show dictInsert ((k0, v0) :: d) k0 v = (k0, v) :: d from by
        simp [dictInsert]]
      rw [dictLookup_cons, dictLookup_cons]
      by_cases h : k0 = k'
      · subst h
        simp
      · have h' : ¬ k' = k0 := fun e => h e.symm
        simp [h, h']
    · rw [show dictInsert ((k0, v0) :: d) k v = (k0, v0) :: dictInsert d k v
        from by simp [dictInsert, h0]]
      rw [dictLookup_cons, ih, dictLookup_cons]
      by_cases h : k0 = k'
      · subst h
        have h' : ¬ k0 = k := h0
        simp [h']
      · simp [h]

theorem dictLookup_foldl {α β : Type} [DecidableEq α] (k : α) :
    ∀ (pairs : List (α × β)) (d : List (α × β)),
      dictLookup (pairs.foldl (fun d kv => dictInsert d kv.1 kv.2) d) k =
        ((pairs.reverse.find? (fun kv => kv.1 = k)).map (fun kv => kv.2)).or
          (dictLookup d k) := by
  intro pairs
  induction pairs with
  | nil => intro d; simp
  | cons kv rest ih =>
    intro d
    simp only [List.foldl_cons, ih, List.reverse_cons, List.find?_append]
    cases hfr : rest.reverse.find? (fun kv => decide (kv.1 = k)) with
    | some kv' => simp [hfr]
    | none =>
      simp only [hfr, Option.map_none', Option.none_or, List.find?,
        Option.or]
      by_cases h : kv.1 = k
      · simp [h, dictLookup_dictInsert, eq_comm]
      · have h' : ¬ k = kv.1 := fun e => h e.symm
        simp [h, h', dictLookup_dictInsert]

theorem find?_key_of_nodup {α β : Type} [DecidableEq α] :
    ∀ (l : List (α × β)) (k : α) (v : β),
      (l.map Prod.fst).Nodup → (k, v) ∈ l →
      l.find? (fun kv => kv.1 = k) = some (k, v) := by
  intro l
  induction l with
  | nil => intro k v _ hm; simp at hm
  | cons kv rest ih =>
    intro k v hn hm
    obtain ⟨k0, v0⟩ := kv
    simp only [List.map_cons, List.nodup_cons] at hn
    rcases List.mem_cons.mp hm with heq | htail
    · cases heq
      simp [List.find?]
    · have hk : k ∈ rest.map Prod.fst :=
        List.mem_map.mpr ⟨(k, v), htail, rfl⟩
      have h0 : ¬ (k0 = k) := fun e => hn.1 (e ▸ hk)
      simp only [List.find?, decide_eq_false h0]
      exact ih k v hn.2 htail

theorem dictLookup_buildDict_none {α β : Type} [DecidableEq α]
    (pairs : List (α × β)) (k : α) (hk : k ∉ pairs.map Prod.fst) :
    dictLookup (buildDict pairs) k = none := by
  unfold buildDict
  rw [dictLookup_foldl]
  have : pairs.reverse.find? (fun kv => kv.1 = k) = none := by
    rw [List.find?_eq_none]
    intro x hx
    simp only [decide_eq_true_eq]
    intro he
    exact hk (List.mem_map.mpr ⟨x, List.mem_reverse.mp hx, he⟩)
  simp [this, dictLookup, List.find?]

theorem dictLookup_buildDict_mem {α β : Type} [DecidableEq α]
    (pairs : List (α × β)) (k : α) (v : β)
    (hn : (pairs.map Prod.fst).Nodup) (hm : (k, v) ∈ pairs) :
    dictLookup (buildDict pairs) k = some v := by
  unfold buildDict
  rw [dictLookup_foldl]
  have hn' : (pairs.reverse.map Prod.fst).Nodup := by
    rw [List.map_reverse]
    exact List.nodup_reverse.mpr hn
  rw [find?_key_of_nodup pairs.reverse k v hn' (List.mem_reverse.mpr hm)]
  rfl

/-! ## C4: timestamp conversion -/

/-- C4 (counterexample): the claim asserts the day is zero-padded to two
digits in the output; on a single-digit day the converter copies the day
token verbatim (it is the month that gets `'%02d'`), so the output is
`2009-12-9 13:59:15`, not `2009-12-09 13:59:15`. -/
theorem c4_day_not_padded :
    java2pythonDate "Wed Dec 9 13:59:15 PST 2009" = some "2009-12-9 13:59:15" ∧
    java2pythonDate "Wed Dec 9 13:59:15 PST 2009" ≠ some "2009-12-09 13:59:15" := by
  decide

/-- C4 (amended): for every timestamp string of the form
`Dow Mon D HH:MM:SS TZ YYYY` with the month abbreviation at index `i` of
the Jan–Dec table, the converter returns
`YYYY-<i+1 zero-padded to two digits>-D HH:MM:SS`: the month is converted
to its 1-based number and zero-padded, and the day token is copied
verbatim.  In particular `Thu Dec 10 13:59:15 PST 2009` converts to
exactly `2009-12-10 13:59:15`. -/
theorem c4_timestamp_format (s dow mAbbr d hms tz y : String) (i : Nat)
    (hsplit : pysplit s = [dow, mAbbr, d, hms, tz, y])
    (hmonth : MONTH_ABBRS.findIdx? (fun a => a = mAbbr) = some i) :
    java2pythonDate s = some (y ++ "-" ++ pad2 (i + 1) ++ "-" ++ d ++ " " ++ hms) := by
  unfold java2pythonDate
  rw [hsplit]
  simp only [hmonth]

/-- Witness for C4: the amended theorem applied to the concrete input
`Thu Dec 10 13:59:15 PST 2009`. -/
theorem c4_timestamp_format_witness :
    java2pythonDate "Thu Dec 10 13:59:15 PST 2009" = some "2009-12-10 13:59:15" :=
  (c4_timestamp_format "Thu Dec 10 13:59:15 PST 2009" "Thu" "Dec" "10"
    "13:59:15" "PST" "2009" 11 (by decide) (by decide)).trans (by decide)

/-! ## C6: boolean conversion paths -/

/-- C6: for every boolean, the interchange path (`java2json`) returns the
native boolean unchanged, and the bulk-copy path (`java2pgcopy`) returns
exactly the single-character token `t` (true) or `f` (false). -/
theorem c6_boolean_paths (b : Bool) (tn cn : String) :
    java2json defaultConv tn cn (.jbool b) = some (.pbool b) ∧
    java2pgcopy defaultConv tn cn (.jbool b) = some (if b then "t" else "f") := by
  cases b <;> exact ⟨rfl, rfl⟩

/-! ## C3: the Reporter/Article relationship index -/

/-- C3: on the two-table database `Reporter(id)`, `Article(reporter_id)`
with the single declared relationship `Article.reporter_id → Reporter.id`,
the forward map has exactly one entry, keyed by the `Article.reporter_id`
field and targeting `Reporter.id`, and the reverse map has exactly one
entry, keyed by `Reporter.id`, containing exactly that relationship. -/
theorem c3_relationship_index :
    getRelationships exampleDB =
      .ok ([(⟨"Article", "reporter_id"⟩, exampleRel)],
           [(⟨"Reporter", "id"⟩, [exampleRel])]) ∧
    exampleRel.to_field = ⟨"Article", "reporter_id"⟩ ∧
    exampleRel.from_field = ⟨"Reporter", "id"⟩ := by
  refine ⟨by decide, rfl, rfl⟩

/-! ## C7: failed index lookups -/

/-- C7 (counterexample): on a column whose single-column index object
lacks the `isPrimaryKey` / `isUnique` attributes, the lookup fails with
`AttributeError`, which is not caught (`except KeyError` only): both the
primary-key flag computation and the attribute-list generation propagate
the error instead of treating it as "no index". -/
theorem c7_attr_absent_raises :
    fieldPrimaryKeyE attrlessTable ⟨"code", "TEXT", 5, 0⟩ =
      .error "AttributeError" ∧
    fieldAttrs none defaultC2F attrlessTable ⟨"code", "TEXT", 5, 0⟩ =
      .error "AttributeError" := by
  decide

/-- C7 (amended): for every field whose backing column has no
single-column index, the missing-key (`KeyError`) failure of the lookup
is treated as "no index" by both the primary-key flag computation (flag
`false`) and the attribute-list generation (no `primary_key` /
`db_index` / `unique` markers: the marker block is empty, and the
attribute list is just the base attributes followed by the `db_column`
part).  An attribute-absent failure on a looked-up index object, by
contrast, propagates as an error (see the counterexample). -/
theorem c7_missing_key_is_no_index (fk : Option FKInfo)
    (c2f : String → Bool → String) (t : AccessTable) (c : Column) (vn : String)
    (hidx : singleColumnIndexes t c.name = none)
    (hvn : camelcase2english (c2f c.name false) = .ok vn) :
    fieldPrimaryKeyE t c = .ok false ∧
    attrsMarkers t c false = .ok [] ∧
    fieldAttrs fk c2f t c =
      .ok (attrsBase fk c vn ++ attrsDbColumn (c2f c.name false) c) := by
  have hpk : fieldPrimaryKeyE t c = .ok false := by
    unfold fieldPrimaryKeyE
    rw [hidx]
  have hmk : attrsMarkers t c false = .ok [] := by
    unfold attrsMarkers
    rw [hidx]
    rfl
  refine ⟨hpk, hmk, ?_⟩
  unfold fieldAttrs
  rw [hpk]
  simp only [Bind.bind, Except.bind, hvn, hmk, List.append_nil]
  rfl

/-- Witness for C7: a column with no index at all on the `Article` demo
table. -/
theorem c7_missing_key_is_no_index_witness :
    fieldPrimaryKeyE demoArticle ⟨"title", "TEXT", 5, 0⟩ = .ok false ∧
    attrsMarkers demoArticle ⟨"title", "TEXT", 5, 0⟩ false = .ok [] ∧
    fieldAttrs none defaultC2F demoArticle ⟨"title", "TEXT", 5, 0⟩ =
      .ok (attrsBase none ⟨"title", "TEXT", 5, 0⟩ "Title" ++
        attrsDbColumn (defaultC2F "title" false) ⟨"title", "TEXT", 5, 0⟩) :=
  c7_missing_key_is_no_index none defaultC2F demoArticle
    ⟨"title", "TEXT", 5, 0⟩ "Title" (by decide) (by decide)

/-! ## C10: the surrogate emits no source text -/

/-- C10: `PrimaryKeyField.as_python()` yields the empty sequence, so
emitting a model whose field list starts with the synthesized surrogate
produces exactly the same lines as emitting the real fields alone: the
class body contains field-definition lines only for the table's real
columns. -/
theorem c10_surrogate_silent (fk : Option FKInfo) (keep : Bool)
    (schema : Option String) (c2f : String → Bool → String)
    (fkOf : ModelField → Option FKInfo) (t : AccessTable) (mname : String)
    (rest : List ModelField) :
    mfAsPython fk c2f t .surrogate = .ok [] ∧
    modelAsPythonF keep schema c2f fkOf t mname (ModelField.surrogate :: rest) =
      modelAsPythonF keep schema c2f fkOf t mname rest ∧
    (fieldsE t = .ok (ModelField.surrogate :: rest) →
      modelAsPython keep schema c2f fkOf t mname =
        modelAsPythonF keep schema c2f fkOf t mname rest) := by
  have hF : modelAsPythonF keep schema c2f fkOf t mname
      (ModelField.surrogate :: rest) =
      modelAsPythonF keep schema c2f fkOf t mname rest := by
    unfold modelAsPythonF
    rw [List.mapM_cons]
    show (Except.ok ([] : List String) >>=
      fun h => (rest.mapM fun f => mfAsPython (fkOf f) c2f t f) >>=
        fun t' => pure (h :: t')) >>= _ = _
    cases hrest : rest.mapM (fun f => mfAsPython (fkOf f) c2f t f) with
    | error e => simp [Bind.bind, Except.bind, hrest]
    | ok ls =>
      simp [Bind.bind, Except.bind, hrest, Pure.pure, Except.pure]
  refine ⟨rfl, hF, ?_⟩
  intro h
  unfold modelAsPython
  rw [h]
  exact hF

/-! ## C8: `get_field_by_column` -/

/-- C8: for a column name present in the model's column-to-field mapping,
`get_field_by_column` returns the mapped field; for an absent name it
raises a `KeyError` whose message contains the attempted column name, the
owning model's name, and the rendering of the full known mapping. -/
theorem c8_get_field_by_column (c2f : String → Bool → String)
    (t : AccessTable) (mname cname : String)
    (d : List (Option String × ModelField))
    (hd : fieldsByColumnNameE t = .ok d) :
    (∀ f, dictLookup d (some cname) = some f →
      getFieldByColumn c2f t mname cname = .ok f) ∧
    (∀ rep, dictLookup d (some cname) = none →
      dictReprE c2f t mname d = .ok rep →
      getFieldByColumn c2f t mname cname =
        .error ("No column name \"" ++ cname ++ "\" in table \"" ++ mname ++
          "\"; fields = " ++ rep) ∧
      strContains ("No column name \"" ++ cname ++ "\" in table \"" ++ mname ++
        "\"; fields = " ++ rep) cname ∧
      strContains ("No column name \"" ++ cname ++ "\" in table \"" ++ mname ++
        "\"; fields = " ++ rep) mname ∧
      strContains ("No column name \"" ++ cname ++ "\" in table \"" ++ mname ++
        "\"; fields = " ++ rep) rep) := by
  constructor
  · intro f hf
    unfold getFieldByColumn
    rw [hd]
    show (match dictLookup d (some cname) with
      | some f => Except.ok f
      | none => _) = Except.ok f
    rw [hf]
  · intro rep hnone hrep
    refine ⟨?_, ?_, ?_, ?_⟩
    · unfold getFieldByColumn
      rw [hd]
      show (match dictLookup d (some cname) with
        | some f => Except.ok f
        | none => _) = _
      rw [hnone]
      show (dictReprE c2f t mname d >>= _) = _
      rw [hrep]
      rfl
    · exact ⟨"No column name \"",
        "\" in table \"" ++ mname ++ "\"; fields = " ++ rep,
        by simp [String.append_assoc]⟩
    · exact ⟨"No column name \"" ++ cname ++ "\" in table \"",
        "\"; fields = " ++ rep, by simp [String.append_assoc]⟩
    · exact ⟨"No column name \"" ++ cname ++ "\" in table \"" ++ mname ++
        "\"; fields = ", "", by simp [String.append_assoc]⟩

/-! ## C2: exactly one primary-key field, first in the list -/

theorem fieldPrimaryKeyE_eq_pkB (t : AccessTable) (c : Column)
    (hwf : ∀ i ∈ t.indexes, i.isPrimaryKeyAttr.isSome) :
    fieldPrimaryKeyE t c = .ok (pkB t c) := by
  unfold fieldPrimaryKeyE pkB
  cases hidx : singleColumnIndexes t c.name with
  | none => rfl
  | some i =>
    have hmem : i ∈ t.indexes := by
      unfold singleColumnIndexes at hidx
      have h1 := List.mem_of_find?_eq_some hidx
      have h2 := List.mem_reverse.mp h1
      exact (List.mem_filter.mp h2).1
    obtain ⟨b, hb⟩ := Option.isSome_iff_exists.mp (hwf i hmem)
    simp [hb]

theorem fieldsE_pure (t : AccessTable)
    (hwf : ∀ i ∈ t.indexes, i.isPrimaryKeyAttr.isSome) :
    fieldsE t =
      (match (t.columns.map (fun c => (c, pkB t c))).filter (fun cp => cp.2) ++
          (t.columns.map (fun c => (c, pkB t c))).filter (fun cp => !cp.2) with
       | [] => Except.error "IndexError"
       | (_, pk0) :: _ =>
         let sortedL :=
           (t.columns.map (fun c => (c, pkB t c))).filter (fun cp => cp.2) ++
           (t.columns.map (fun c => (c, pkB t c))).filter (fun cp => !cp.2)
         if pk0 then Except.ok (sortedL.map (fun cp => ModelField.real cp.1))
         else Except.ok (ModelField.surrogate ::
           sortedL.map (fun cp => ModelField.real cp.1))) := by
  unfold fieldsE
  rw [mapM_ok_of_forall _ (fun c => (c, pkB t c)) t.columns
    (fun c _ => by rw [show (do
      let pk ← fieldPrimaryKeyE t c
      pure (c, pk) : Except String (Column × Bool)) =
        (fieldPrimaryKeyE t c >>= fun pk => pure (c, pk)) from rfl,
      fieldPrimaryKeyE_eq_pkB t c hwf]; rfl)]
  rfl

/-- C2: on a source table (nonempty column list, index attributes present,
at most one column carrying a single-column primary-key index — Access
tables have at most one primary key), the model's field list contains
exactly one field with the primary-key flag, it sits at position 0, and
when the table has no single-column primary-key index that field is the
surrogate, named `id`, followed by the real columns in source order. -/
theorem c2_exactly_one_pk (t : AccessTable)
    (hne : t.columns ≠ [])
    (hwf : ∀ i ∈ t.indexes, i.isPrimaryKeyAttr.isSome)
    (hone : (t.columns.filter (fun c => pkB t c)).length ≤ 1) :
    ∃ fl, fieldsE t = .ok fl ∧
      fl.countP (mfPKb t) = 1 ∧
      (∃ f0 rest, fl = f0 :: rest ∧ mfPKb t f0 = true ∧
        rest.countP (mfPKb t) = 0) ∧
      (t.columns.filter (fun c => pkB t c) = [] →
        fl = ModelField.surrogate :: t.columns.map ModelField.real) ∧
      (∀ c2f, mfNameE c2f t ModelField.surrogate = .ok "id") := by
  have hfe := fieldsE_pure t hwf
  have hfilt : (t.columns.map (fun c => (c, pkB t c))).filter (fun cp => cp.2) =
      (t.columns.filter (fun c => pkB t c)).map (fun c => (c, pkB t c)) := by
    rw [List.filter_map]
    rfl
  have hfilt' : (t.columns.map (fun c => (c, pkB t c))).filter (fun cp => !cp.2) =
      (t.columns.filter (fun c => !pkB t c)).map (fun c => (c, pkB t c)) := by
    rw [List.filter_map]
    rfl
  cases hcase : t.columns.filter (fun c => pkB t c) with
  | nil =>
    have hall : ∀ c ∈ t.columns, pkB t c = false := by
      intro c hc
      by_contra hcc
      have : c ∈ t.columns.filter (fun c => pkB t c) :=
        List.mem_filter.mpr ⟨hc, by simpa using hcc⟩
      rw [hcase] at this
      simp at this
    have hself : t.columns.filter (fun c => !pkB t c) = t.columns :=
      List.filter_eq_self.mpr (fun c hc => by simp [hall c hc])
    rw [hcase] at hfilt
    rw [hself] at hfilt'
    obtain ⟨c0, cols', hcols⟩ := List.exists_cons_of_ne_nil hne
    refine ⟨ModelField.surrogate :: t.columns.map ModelField.real, ?_, ?_, ?_, ?_, ?_⟩
    · rw [hfe, hfilt, hfilt']
      simp only [List.map_nil, List.nil_append]
      rw [hcols]
      simp only [List.map_cons]
      rw [show pkB t c0 = false from hall c0 (by rw [hcols]; simp)]
      simp only [Bool.false_eq_true, if_false]
      simp [List.map_map]
    · rw [List.countP_cons]
      simp only [mfPKb, List.countP_map]
      rw [show (mfPKb t ∘ ModelField.real) = fun c => pkB t c from rfl]
      rw [List.countP_eq_length_filter, hcase]
      simp
    · refine ⟨ModelField.surrogate, t.columns.map ModelField.real, rfl, rfl, ?_⟩
      simp only [List.countP_map]
      rw [show (mfPKb t ∘ ModelField.real) = fun c => pkB t c from rfl]
      rw [List.countP_eq_length_filter, hcase]
      rfl
    · intro _; rfl
    · intro c2f; rfl
  | cons x xs =>
    have hxs : xs = [] := by
      rw [hcase] at hone
      simpa using hone
    subst hxs
    have hx : pkB t x = true := by
      have : x ∈ t.columns.filter (fun c => pkB t c) := by
        rw [hcase]; simp
      simpa using (List.mem_filter.mp this).2
    have hrest : ∀ c ∈ t.columns.filter (fun c => !pkB t c),
        pkB t c = false := by
      intro c hc
      simpa using (List.mem_filter.mp hc).2
    rw [hcase] at hfilt
    refine ⟨ModelField.real x ::
      (t.columns.filter (fun c => !pkB t c)).map ModelField.real, ?_, ?_, ?_, ?_, ?_⟩
    · rw [hfe, hfilt, hfilt']
      simp only [List.map_cons, List.map_nil, List.cons_append, hx, if_true]
      congr 2
      simp [List.map_map]
    · rw [List.countP_cons]
      simp only [mfPKb, hx, List.countP_map]
      rw [show (mfPKb t ∘ ModelField.real) = fun c => pkB t c from rfl]
      have hz : (t.columns.filter (fun c => !pkB t c)).countP (fun c => pkB t c) = 0 := by
        rw [List.countP_eq_zero]
        intro c hc
        simp [hrest c hc]
      simp [mfPKb, hz, hx]
    · refine ⟨ModelField.real x,
        (t.columns.filter (fun c => !pkB t c)).map ModelField.real, rfl, ?_, ?_⟩
      · simp [mfPKb, hx]
      · simp only [List.countP_map]
        rw [show (mfPKb t ∘ ModelField.real) = fun c => pkB t c from rfl]
        rw [List.countP_eq_zero]
        intro c hc
        simp [hrest c hc]
    · intro h
      exact absurd h (List.cons_ne_nil x [])
    · intro c2f; rfl

/-- Witness for C10: on the Article demo table (synthesized surrogate),
the emitted model source equals the one computed from the real fields
alone. -/
theorem c10_surrogate_silent_witness :
    modelAsPython false none defaultC2F (fun _ => none) demoArticle "Article" =
      modelAsPythonF false none defaultC2F (fun _ => none) demoArticle "Article"
        [.real ⟨"title", "TEXT", 5, 0⟩, .real ⟨"reporter", "TEXT", 5, 1⟩] :=
  (c10_surrogate_silent none false none defaultC2F (fun _ => none) demoArticle
    "Article" _).2.2 (by decide)

/-- Witness for C8: looking up the absent column `nope` on the Article
demo model produces the diagnostic `KeyError` message. -/
theorem c8_get_field_by_column_witness :
    getFieldByColumn defaultC2F demoArticle "Article" "nope" =
      .error ("No column name \"" ++ "nope" ++ "\" in table \"" ++ "Article" ++
        "\"; fields = " ++
        "\x7bNone: <Field Article.id>, 'title': <Field Article.title>, 'reporter': <Field Article.reporter>\x7d") ∧
    strContains ("No column name \"" ++ "nope" ++ "\" in table \"" ++ "Article" ++
      "\"; fields = " ++
      "\x7bNone: <Field Article.id>, 'title': <Field Article.title>, 'reporter': <Field Article.reporter>\x7d")
      "nope" ∧
    strContains ("No column name \"" ++ "nope" ++ "\" in table \"" ++ "Article" ++
      "\"; fields = " ++
      "\x7bNone: <Field Article.id>, 'title': <Field Article.title>, 'reporter': <Field Article.reporter>\x7d")
      "Article" ∧
    strContains ("No column name \"" ++ "nope" ++ "\" in table \"" ++ "Article" ++
      "\"; fields = " ++
      "\x7bNone: <Field Article.id>, 'title': <Field Article.title>, 'reporter': <Field Article.reporter>\x7d")
      "\x7bNone: <Field Article.id>, 'title': <Field Article.title>, 'reporter': <Field Article.reporter>\x7d" :=
  (c8_get_field_by_column defaultC2F demoArticle "Article" "nope"
    [(none, .surrogate), (some "title", .real ⟨"title", "TEXT", 5, 0⟩),
     (some "reporter", .real ⟨"reporter", "TEXT", 5, 1⟩)] (by decide)).2
    "\x7bNone: <Field Article.id>, 'title': <Field Article.title>, 'reporter': <Field Article.reporter>\x7d"
    (by decide) (by decide)

/-- Witness for C2: the Article demo table (no primary key in the source)
gets the surrogate at position 0. -/
theorem c2_exactly_one_pk_witness :
    ∃ fl, fieldsE demoArticle = .ok fl ∧
      fl.countP (mfPKb demoArticle) = 1 ∧
      (∃ f0 rest, fl = f0 :: rest ∧ mfPKb demoArticle f0 = true ∧
        rest.countP (mfPKb demoArticle) = 0) ∧
      (demoArticle.columns.filter (fun c => pkB demoArticle c) = [] →
        fl = ModelField.surrogate :: demoArticle.columns.map ModelField.real) ∧
      (∀ c2f, mfNameE c2f demoArticle ModelField.surrogate = .ok "id") :=
  c2_exactly_one_pk demoArticle (by decide) (by decide) (by decide)

/-! ## C5: the fixture emitter -/

/-- C5 (counterexample): on the `Note(id, title)` table, which has no
primary key, the primary-key field is the synthesized surrogate, whose
backing column is `None` — so per the claim the fields mapping should
carry an entry for every column, including `id`.  The code instead
excludes any column whose *name* equals the primary-key field's name
(`'id'`), so the emitted record has no `id` entry. -/
theorem c5_fields_exclusion_by_name :
    outputFixtureRecords defaultConv defaultC2F "myapp" noteTable "Note"
      [[("id", .jstr "7"), ("title", .jstr "x")]] =
      .ok [⟨.pint 0, "myapp.note", [("title", .pstr "x")]⟩] ∧
    "id" ∈ ([("id", JValue.jstr "7"), ("title", JValue.jstr "x")].map Prod.fst) ∧
    (∃ fl, fieldsE noteTable = .ok fl ∧
      firstPK noteTable fl = .ok .surrogate ∧
      mfColumnName .surrogate = none) ∧
    dictLookup ([("title", PyValue.pstr "x")] : List (String × PyValue)) "id" =
      none := by
  refine ⟨by decide, by decide,
    ⟨[.surrogate, .real ⟨"id", "TEXT", 5, 0⟩, .real ⟨"title", "TEXT", 5, 1⟩],
      by decide, by decide, rfl⟩, by decide⟩

theorem fixturePairs_spec (custom : String → String → PyValue → PyValue)
    (tn : String) :
    ∀ (l : List (String × JValue)) (pairs : List (String × PyValue)),
      l.mapM (fun kv => do
        let pv ← liftOpt "conversion error" (java2json custom tn kv.1 kv.2)
        pure (kv.1, pv)) = .ok pairs →
      pairs.map Prod.fst = l.map Prod.fst ∧
      ∀ cn v, (cn, v) ∈ l →
        ∃ pv, java2json custom tn cn v = some pv ∧ (cn, pv) ∈ pairs := by
  intro l
  induction l with
  | nil =>
    intro pairs h
    simp only [List.mapM_nil] at h
    cases h
    exact ⟨rfl, by simp⟩
  | cons kv rest ih =>
    intro pairs h
    rw [List.mapM_cons] at h
    cases hc : java2json custom tn kv.1 kv.2 with
    | none =>
      rw [show (do
        let pv ← liftOpt "conversion error" (java2json custom tn kv.1 kv.2)
        pure (kv.1, pv) : Except String (String × PyValue)) =
          Except.error "conversion error" from by rw [hc]; rfl] at h
      simp [Bind.bind, Except.bind] at h
    | some pv =>
      rw [show (do
        let pv ← liftOpt "conversion error" (java2json custom tn kv.1 kv.2)
        pure (kv.1, pv) : Except String (String × PyValue)) =
          Except.ok (kv.1, pv) from by rw [hc]; rfl] at h
      cases hrest : rest.mapM (fun kv => do
          let pv ← liftOpt "conversion error" (java2json custom tn kv.1 kv.2)
          pure (kv.1, pv)) with
      | error e => rw [hrest] at h; simp [Bind.bind, Except.bind] at h
      | ok ps =>
        rw [hrest] at h
        simp only [Bind.bind, Except.bind, Pure.pure, Except.pure] at h
        cases h
        obtain ⟨hkeys, hmem⟩ := ih ps hrest
        refine ⟨by simp [hkeys], ?_⟩
        intro cn v hm
        rcases List.mem_cons.mp hm with heq | htail
        · cases heq
          exact ⟨pv, hc, by simp⟩
        · obtain ⟨pv', hpv', hin⟩ := hmem cn v htail
          exact ⟨pv', hpv', by simp [hin]⟩

/-- C5 (amended): each emitted record's primary key is the converted
value of the primary-key field's backing column when a single-column
primary key exists, else the zero-based row counter; and the fields
mapping, keyed by the *source column names*, carries the converted value
for every column of the row whose name differs from the primary-key
*field's name* (for a real primary key under the default naming that is
exactly the backing column; for a synthesized key, any column literally
named `id` is also dropped), and no entry under the primary-key field's
name. -/
theorem c5_fixture_records (custom : String → String → PyValue → PyValue)
    (c2f : String → Bool → String) (appName : String) (t : AccessTable)
    (mname : String) (rows : List (List (String × JValue)))
    (fl : List ModelField) (pkf : ModelField) (pknm : String)
    (recs : List FixtureRecord) (k : Nat) (row : List (String × JValue))
    (h1 : fieldsE t = .ok fl)
    (h2 : firstPK t fl = .ok pkf)
    (h3 : mfNameE c2f t pkf = .ok pknm)
    (h4 : outputFixtureRecords custom c2f appName t mname rows = .ok recs)
    (h5 : rows.get? k = some row)
    (h6 : (row.map Prod.fst).Nodup) :
    ∃ rec, recs.get? k = some rec ∧
      (pkf = .surrogate → rec.pk = .pint (k : Int)) ∧
      (∀ c, pkf = .real c →
        ∃ v pv, (row.map (fun kv => kv.2)).get? c.columnIndex = some v ∧
          java2json custom t.name c.name v = some pv ∧ rec.pk = pv) ∧
      (∀ cn v, (cn, v) ∈ row → cn ≠ pknm →
        ∃ pv, java2json custom t.name cn v = some pv ∧
          dictLookup rec.fields cn = some pv) ∧
      dictLookup rec.fields pknm = none ∧
      rec.model = appName ++ "." ++ pyLower mname := by
  unfold outputFixtureRecords at h4
  rw [h1] at h4
  simp only [Bind.bind, Except.bind] at h4
  rw [h2] at h4
  simp only at h4
  rw [h3] at h4
  simp only at h4
  have henum : rows.enum.get? k = some (k, row) := by
    rw [List.get?_enum, h5]
    rfl
  obtain ⟨rec, hrec_get, hrec⟩ := mapM_ok_get h4 k (k, row) henum
  have hrec2 : fixtureRecord custom appName t mname pkf pknm k row =
      .ok rec := hrec
  refine ⟨rec, hrec_get, ?_⟩
  have hfields : ∀ (pairs : List (String × PyValue)),
      (row.filter (fun kv => kv.1 ≠ pknm)).mapM (fun kv => do
        let pv ← liftOpt "conversion error" (java2json custom t.name kv.1 kv.2)
        pure (kv.1, pv)) = .ok pairs →
      (∀ cn v, (cn, v) ∈ row → cn ≠ pknm →
        ∃ pv, java2json custom t.name cn v = some pv ∧
          dictLookup (buildDict pairs) cn = some pv) ∧
      dictLookup (buildDict pairs) pknm = none := by
    intro pairs hpairs
    obtain ⟨hkeys, hmem⟩ := fixturePairs_spec custom t.name _ pairs hpairs
    have hkn : (pairs.map Prod.fst).Nodup := by
      rw [hkeys]
      exact h6.sublist ((List.filter_sublist _).map Prod.fst)
    constructor
    · intro cn v hm hne
      have hf : (cn, v) ∈ row.filter (fun kv => kv.1 ≠ pknm) :=
        List.mem_filter.mpr ⟨hm, by simpa using hne⟩
      obtain ⟨pv, hpv, hin⟩ := hmem cn v hf
      exact ⟨pv, hpv, dictLookup_buildDict_mem pairs cn pv hkn hin⟩
    · apply dictLookup_buildDict_none
      rw [hkeys]
      intro hmm
      obtain ⟨kv, hkv, hfst⟩ := List.mem_map.mp hmm
      have hne := (List.mem_filter.mp hkv).2
      rw [hfst] at hne
      simp at hne
  cases pkf with
  | surrogate =>
    unfold fixtureRecord at hrec2
    rw [show fixturePk custom t k (row.map (fun kv => kv.2)) .surrogate =
      Except.ok (.pint (k : Int)) from rfl] at hrec2
    have hrec4 : ((row.filter (fun kv => kv.1 ≠ pknm)).mapM (fun kv => do
        let pv ← liftOpt "conversion error"
          (java2json custom t.name kv.1 kv.2)
        pure (kv.1, pv)) >>= fun pairs =>
      Except.ok (⟨.pint (k : Int), appName ++ "." ++ pyLower mname,
        pairs.foldl (fun d kv => dictInsert d kv.1 kv.2) []⟩ :
        FixtureRecord)) = Except.ok rec := hrec2
    cases hpairs : (row.filter (fun kv => kv.1 ≠ pknm)).mapM (fun kv => do
        let pv ← liftOpt "conversion error" (java2json custom t.name kv.1 kv.2)
        pure (kv.1, pv)) with
    | error e =>
      rw [hpairs] at hrec4
      exact Except.noConfusion (show (Except.error e :
        Except String FixtureRecord) = Except.ok rec from hrec4)
    | ok pairs =>
      rw [hpairs] at hrec4
      have hrec3 : Except.ok (⟨.pint (k : Int),
          appName ++ "." ++ pyLower mname, buildDict pairs⟩ : FixtureRecord) =
          Except.ok rec := hrec4
      cases Except.ok.inj hrec3
      obtain ⟨hf1, hf2⟩ := hfields pairs hpairs
      exact ⟨fun _ => rfl, fun c hcc => ModelField.noConfusion hcc, hf1, hf2,
        rfl⟩
  | real c =>
    unfold fixtureRecord at hrec2
    simp only [fixturePk] at hrec2
    cases hv : (row.map (fun kv => kv.2)).get? c.columnIndex with
    | none =>
      rw [hv] at hrec2
      exact Except.noConfusion (show (Except.error "IndexError" :
        Except String FixtureRecord) = Except.ok rec from hrec2)
    | some v =>
      rw [hv] at hrec2
      have hrec4 : (liftOpt "conversion error"
          (java2json custom t.name c.name v) >>= fun pkv =>
          (row.filter (fun kv => kv.1 ≠ pknm)).mapM (fun kv => do
            let pv ← liftOpt "conversion error"
              (java2json custom t.name kv.1 kv.2)
            pure (kv.1, pv)) >>= fun pairs =>
          Except.ok (⟨pkv, appName ++ "." ++ pyLower mname,
            pairs.foldl (fun d kv => dictInsert d kv.1 kv.2) []⟩ :
            FixtureRecord)) = Except.ok rec := hrec2
      cases hcv : java2json custom t.name c.name v with
      | none =>
        rw [show liftOpt "conversion error"
            (java2json custom t.name c.name v) =
            Except.error "conversion error" from by rw [hcv]; rfl] at hrec4
        exact Except.noConfusion (show (Except.error "conversion error" :
          Except String FixtureRecord) = Except.ok rec from hrec4)
      | some pv =>
        rw [show liftOpt "conversion error"
            (java2json custom t.name c.name v) =
            Except.ok pv from by rw [hcv]; rfl] at hrec4
        cases hpairs : (row.filter (fun kv => kv.1 ≠ pknm)).mapM (fun kv => do
            let pv ← liftOpt "conversion error"
              (java2json custom t.name kv.1 kv.2)
            pure (kv.1, pv)) with
        | error e =>
          rw [hpairs] at hrec4
          exact Except.noConfusion (show (Except.error e :
            Except String FixtureRecord) = Except.ok rec from hrec4)
        | ok pairs =>
          rw [hpairs] at hrec4
          have hrec3 : Except.ok (⟨pv, appName ++ "." ++ pyLower mname,
              buildDict pairs⟩ : FixtureRecord) = Except.ok rec := hrec4
          cases Except.ok.inj hrec3
          obtain ⟨hf1, hf2⟩ := hfields pairs hpairs
          refine ⟨fun hcc => ModelField.noConfusion hcc, ?_, hf1, hf2, rfl⟩
          intro c' hcc
          cases hcc
          exact ⟨v, pv, hv, hcv, rfl⟩

/-- Witness for C5: the Reporter demo table (real single-column primary
key `id`) with one source row. -/
theorem c5_fixture_records_witness :
    ∃ rec, [(⟨.pint 3, "myapp.reporter", [("title", .pstr "a")]⟩ :
        FixtureRecord)].get? 0 = some rec ∧
      ((ModelField.real ⟨"id", "INT", 4, 1⟩ : ModelField) = .surrogate →
        rec.pk = .pint ((0 : Nat) : Int)) ∧
      (∀ c, (ModelField.real ⟨"id", "INT", 4, 1⟩ : ModelField) = .real c →
        ∃ v pv, (([("title", JValue.jstr "a"), ("id", JValue.jint 3)].map
            (fun kv => kv.2)).get? c.columnIndex = some v) ∧
          java2json defaultConv demoReporter.name c.name v = some pv ∧
          rec.pk = pv) ∧
      (∀ cn v, (cn, v) ∈ [("title", JValue.jstr "a"), ("id", JValue.jint 3)] →
        cn ≠ "id" →
        ∃ pv, java2json defaultConv demoReporter.name cn v = some pv ∧
          dictLookup rec.fields cn = some pv) ∧
      dictLookup rec.fields "id" = none ∧
      rec.model = "myapp" ++ "." ++ pyLower "Reporter" :=
  c5_fixture_records defaultConv defaultC2F "myapp" demoReporter "Reporter"
    [[("title", .jstr "a"), ("id", .jint 3)]]
    [.real ⟨"id", "INT", 4, 1⟩, .real ⟨"title", "TEXT", 5, 0⟩]
    (.real ⟨"id", "INT", 4, 1⟩) "id"
    [⟨.pint 3, "myapp.reporter", [("title", .pstr "a")]⟩] 0
    [("title", .jstr "a"), ("id", .jint 3)]
    (by decide) (by decide) (by decide) (by decide) (by decide) (by decide)

/-! ## C9 and C1: the dependency orderer -/

theorem orderModels_spec (g : Nat → List Nat) (names : Nat → Option String)
    (U : Finset Nat) (hclosed : ∀ u ∈ U, ∀ p ∈ g u, p ∈ U) :
    ∀ (fuel : Nat) (ms : List Nat) (done : Finset Nat),
      (∀ x ∈ ms, x ∈ U) → done ⊆ U → U.card ≤ fuel + done.card →
      OMSpec names U ms done (orderModels g names fuel ms done) := by
  intro fuel
  induction fuel with
  | zero =>
    intro ms done hms hdone hfuel
    have hdu : done = U := Finset.eq_of_subset_of_card_le hdone (by omega)
    refine ⟨Finset.Subset.refl done, ?_, ?_, List.nodup_nil, ?_, ?_⟩
    · intro x
      show x ∈ done ↔ x ∈ done ∨ x ∈ ([] : List Nat)
      simp
    · intro x hx
      exact absurd (show x ∈ ([] : List Nat) from hx) (List.not_mem_nil x)
    · intro x hx
      exact absurd (show x ∈ ([] : List Nat) from hx) (List.not_mem_nil x)
    · intro x hx _
      show x ∈ done
      rw [hdu]
      exact hms x hx
  | succ fuel ihf =>
    intro ms
    induction ms with
    | nil =>
      intro done hms hdone hfuel
      refine ⟨Finset.Subset.refl done, ?_, ?_, List.nodup_nil, ?_, ?_⟩
      · intro x
        show x ∈ done ↔ x ∈ done ∨ x ∈ ([] : List Nat)
        simp
      · intro x hx
        exact absurd (show x ∈ ([] : List Nat) from hx) (List.not_mem_nil x)
      · intro x hx
        exact absurd (show x ∈ ([] : List Nat) from hx) (List.not_mem_nil x)
      · intro x hx
        exact absurd (show x ∈ ([] : List Nat) from hx) (List.not_mem_nil x)
    | cons m ms ihms =>
      intro done hms hdone hfuel
      show OMSpec names U (m :: ms) done
        (orderModelsGo g names (orderModels g names fuel) (m :: ms) done)
      by_cases hnm : (names m).isNone
      · have hGo : orderModelsGo g names (orderModels g names fuel) (m :: ms)
            done = orderModels g names (fuel + 1) ms done := by
          show (if (names m).isNone then _ else _) = _
          rw [if_pos hnm]
          rfl
        rw [hGo]
        obtain ⟨a1, a2, a3, a4, a5, a6⟩ :=
          ihms done (fun x hx => hms x (by simp [hx])) hdone hfuel
        refine ⟨a1, a2, a3, a4, a5, ?_⟩
        intro x hx hnamed
        rcases List.mem_cons.mp hx with rfl | hx'
        · rw [Option.isNone_iff_eq_none] at hnm
          rw [hnm] at hnamed
          simp at hnamed
        · exact a6 x hx' hnamed
      · by_cases hmem : m ∈ done
        · have hGo : orderModelsGo g names (orderModels g names fuel) (m :: ms)
              done = orderModels g names (fuel + 1) ms done := by
            show (if (names m).isNone then _ else _) = _
            rw [if_neg hnm, if_pos hmem]
            rfl
          rw [hGo]
          obtain ⟨a1, a2, a3, a4, a5, a6⟩ :=
            ihms done (fun x hx => hms x (by simp [hx])) hdone hfuel
          refine ⟨a1, a2, a3, a4, a5, ?_⟩
          intro x hx hnamed
          rcases List.mem_cons.mp hx with rfl | hx'
          · exact a1 hmem
          · exact a6 x hx' hnamed
        · have hmU : m ∈ U := hms m (by simp)
          have hGo : orderModelsGo g names (orderModels g names fuel) (m :: ms)
              done =
              ((orderModels g names fuel (g m) (insert m done)).1 ++ m ::
                (orderModels g names (fuel + 1) ms
                  (orderModels g names fuel (g m) (insert m done)).2).1,
               (orderModels g names (fuel + 1) ms
                  (orderModels g names fuel (g m) (insert m done)).2).2) := by
            show (if (names m).isNone then _ else _) = _
            rw [if_neg hnm, if_neg hmem]
            rfl
          have hmnamed : (names m).isSome := by
            cases hn : names m with
            | none => exact absurd (by rw [hn]; rfl) hnm
            | some v => rfl
          rw [hGo]
          obtain ⟨s1, s2, s3, s4, s5, s6⟩ := ihf (g m) (insert m done)
            (fun x hx => hclosed m hmU x hx)
            (Finset.insert_subset hmU hdone)
            (by rw [Finset.card_insert_of_not_mem hmem]; omega)
          have hinsU : insert m done ⊆ U := Finset.insert_subset hmU hdone
          have hr12U : (orderModels g names fuel (g m) (insert m done)).2 ⊆ U := by
            intro x hx
            rcases (s2 x).mp hx with hxd | hxout
            · exact hinsU hxd
            · exact (s5 x hxout).2
          obtain ⟨t1, t2, t3, t4, t5, t6⟩ := ihms
            (orderModels g names fuel (g m) (insert m done)).2
            (fun x hx => hms x (by simp [hx]))
            hr12U
            (by
              have h1 : (insert m done).card = done.card + 1 :=
                Finset.card_insert_of_not_mem hmem
              have h2 : (insert m done).card ≤
                  (orderModels g names fuel (g m) (insert m done)).2.card :=
                Finset.card_le_card s1
              omega)
          have hmr12 : m ∈ (orderModels g names fuel (g m) (insert m done)).2 :=
            s1 (Finset.mem_insert_self m done)
          refine ⟨?_, ?_, ?_, ?_, ?_, ?_⟩
          · intro x hx
            exact t1 (s1 (Finset.mem_insert_of_mem hx))
          · intro x
            simp only [List.mem_append, List.mem_cons]
            constructor
            · intro hx
              rcases (t2 x).mp hx with hxr | hxout
              · rcases (s2 x).mp hxr with hxi | hxout1
                · rcases Finset.mem_insert.mp hxi with rfl | hxd
                  · exact Or.inr (Or.inr (Or.inl rfl))
                  · exact Or.inl hxd
                · exact Or.inr (Or.inl hxout1)
              · exact Or.inr (Or.inr (Or.inr hxout))
            · intro hx
              rcases hx with hxd | hx1 | rfl | hx2
              · exact t1 (s1 (Finset.mem_insert_of_mem hxd))
              · exact t1 ((s2 x).mpr (Or.inr hx1))
              · exact t1 hmr12
              · exact (t2 x).mpr (Or.inr hx2)
          · intro x hx
            rcases List.mem_append.mp hx with hx1 | hx1
            · intro hxd
              exact s3 x hx1 (Finset.mem_insert_of_mem hxd)
            · rcases List.mem_cons.mp hx1 with rfl | hx2
              · exact hmem
              · intro hxd
                exact t3 x hx2 (s1 (Finset.mem_insert_of_mem hxd))
          · rw [List.nodup_append]
            refine ⟨s4, ?_, ?_⟩
            · rw [List.nodup_cons]
              refine ⟨?_, t4⟩
              intro hm2
              exact t3 m hm2 hmr12
            · intro a ha1 ha2
              rcases List.mem_cons.mp ha2 with rfl | ha3
              · exact s3 a ha1 (Finset.mem_insert_self a done)
              · exact t3 a ha3 ((s2 a).mpr (Or.inr ha1))
          · intro x hx
            rcases List.mem_append.mp hx with hx1 | hx1
            · exact s5 x hx1
            · rcases List.mem_cons.mp hx1 with rfl | hx2
              · exact ⟨hmnamed, hmU⟩
              · exact t5 x hx2
          · intro x hx hnamed
            rcases List.mem_cons.mp hx with rfl | hx'
            · exact t1 hmr12
            · exact t6 x hx' hnamed

theorem topoOK_congr (g : Nat → List Nat) (names : Nat → Option String) :
    ∀ (l b1 b2 : List Nat), (∀ x, x ∈ b1 ↔ x ∈ b2) →
      topoOK g names b1 l → topoOK g names b2 l := by
  intro l
  induction l with
  | nil =>
    intro b1 b2 _ _
    trivial
  | cons x l ih =>
    intro b1 b2 hb h
    obtain ⟨h1, h2⟩ := h
    refine ⟨fun p hp hn => (hb p).mp (h1 p hp hn), ?_⟩
    exact ih (x :: b1) (x :: b2) (fun y => by simp [hb y]) h2

theorem topoOK_append (g : Nat → List Nat) (names : Nat → Option String) :
    ∀ (l1 l2 black : List Nat),
      topoOK g names black l1 → topoOK g names (l1.reverse ++ black) l2 →
      topoOK g names black (l1 ++ l2) := by
  intro l1
  induction l1 with
  | nil =>
    intro l2 black _ h2
    simpa using h2
  | cons x l1 ih =>
    intro l2 black h1 h2
    obtain ⟨ha, hb⟩ := h1
    refine ⟨ha, ?_⟩
    apply ih l2 (x :: black) hb
    rw [List.reverse_cons, List.append_assoc] at h2
    exact h2

theorem acyclic_of_rank (g : Nat → List Nat) (rank : Nat → Nat)
    (hr : ∀ a : Nat, ∀ b ∈ g a, rank b < rank a) : AcyclicG g := by
  have mono : ∀ a b : Nat, Reaches g a b → rank b < rank a := by
    intro a b h
    induction h with
    | single hs => exact hr _ _ hs
    | tail _ hbc ih => exact lt_trans (hr _ _ hbc) ih
  intro x hx
  exact absurd (mono x x hx) (lt_irrefl _)

theorem orderModels_topo (g : Nat → List Nat) (names : Nat → Option String)
    (U : Finset Nat) (hclosed : ∀ u ∈ U, ∀ p ∈ g u, p ∈ U)
    (hacyc : AcyclicG g) :
    ∀ (fuel : Nat) (ms : List Nat) (done : Finset Nat) (black grey : List Nat),
      (∀ x ∈ ms, x ∈ U) → done ⊆ U → U.card ≤ fuel + done.card →
      (∀ x, x ∈ done ↔ x ∈ black ∨ x ∈ grey) →
      (∀ b ∈ black, ∀ p ∈ g b, (names p).isSome → p ∈ black) →
      (∀ gr ∈ grey, ∀ x ∈ ms, Reaches g gr x) →
      topoOK g names black (orderModels g names fuel ms done).1 ∧
      (∀ b, (b ∈ black ∨ b ∈ (orderModels g names fuel ms done).1) →
        ∀ p ∈ g b, (names p).isSome →
          (p ∈ black ∨ p ∈ (orderModels g names fuel ms done).1)) := by
  intro fuel
  induction fuel with
  | zero =>
    intro ms done black grey hms hdone hfuel hdoneBG hblack hgrey
    constructor
    · show topoOK g names black []
      trivial
    · intro b hb p hp hn
      rcases hb with hb | hb
      · exact Or.inl (hblack b hb p hp hn)
      · exact absurd (show b ∈ ([] : List Nat) from hb) (List.not_mem_nil b)
  | succ fuel ihf =>
    intro ms
    induction ms with
    | nil =>
      intro done black grey hms hdone hfuel hdoneBG hblack hgrey
      constructor
      · show topoOK g names black []
        trivial
      · intro b hb p hp hn
        rcases hb with hb | hb
        · exact Or.inl (hblack b hb p hp hn)
        · exact absurd (show b ∈ ([] : List Nat) from hb) (List.not_mem_nil b)
    | cons m ms ihms =>
      intro done black grey hms hdone hfuel hdoneBG hblack hgrey
      by_cases hnm : (names m).isNone
      · have hGo : orderModels g names (fuel + 1) (m :: ms) done =
            orderModels g names (fuel + 1) ms done := by
          show (if (names m).isNone then _ else _) = _
          rw [if_pos hnm]
          rfl
        rw [hGo]
        exact ihms done black grey (fun x hx => hms x (by simp [hx])) hdone
          hfuel hdoneBG hblack
          (fun gr hgr x hx => hgrey gr hgr x (by simp [hx]))
      · by_cases hmem : m ∈ done
        · have hGo : orderModels g names (fuel + 1) (m :: ms) done =
              orderModels g names (fuel + 1) ms done := by
            show (if (names m).isNone then _ else _) = _
            rw [if_neg hnm, if_pos hmem]
            rfl
          rw [hGo]
          exact ihms done black grey (fun x hx => hms x (by simp [hx])) hdone
            hfuel hdoneBG hblack
            (fun gr hgr x hx => hgrey gr hgr x (by simp [hx]))
        · have hmU : m ∈ U := hms m (by simp)
          have hmnamed : (names m).isSome := by
            cases hn : names m with
            | none => exact absurd (by rw [hn]; rfl) hnm
            | some v => rfl
          have hGo : orderModels g names (fuel + 1) (m :: ms) done =
              ((orderModels g names fuel (g m) (insert m done)).1 ++ m ::
                (orderModels g names (fuel + 1) ms
                  (orderModels g names fuel (g m) (insert m done)).2).1,
               (orderModels g names (fuel + 1) ms
                  (orderModels g names fuel (g m) (insert m done)).2).2) := by
            show (if (names m).isNone then _ else _) = _
            rw [if_neg hnm, if_neg hmem]
            rfl
          rw [hGo]
          have hgmU : ∀ x ∈ g m, x ∈ U := fun x hx => hclosed m hmU x hx
          have hinsU : insert m done ⊆ U := Finset.insert_subset hmU hdone
          have hinsCard : U.card ≤ fuel + (insert m done).card := by
            rw [Finset.card_insert_of_not_mem hmem]
            omega
          obtain ⟨s1, s2, s3, s4, s5, s6⟩ := orderModels_spec g names U hclosed
            fuel (g m) (insert m done) hgmU hinsU hinsCard
          obtain ⟨P1, P2⟩ := ihf (g m) (insert m done) black (m :: grey) hgmU
            hinsU hinsCard
            (by
              intro x
              rw [Finset.mem_insert, hdoneBG x]
              simp only [List.mem_cons]
              tauto)
            hblack
            (by
              intro gr hgr x hx
              rcases List.mem_cons.mp hgr with rfl | hgr'
              · exact Relation.TransGen.single hx
              · exact Relation.TransGen.tail (hgrey gr hgr' m (by simp)) hx)
          have hparents : ∀ p ∈ g m, (names p).isSome →
              p ∈ black ∨ p ∈ (orderModels g names fuel (g m) (insert m done)).1 := by
            intro p hp hn
            have hpr : p ∈ (orderModels g names fuel (g m) (insert m done)).2 :=
              s6 p hp hn
            rcases (s2 p).mp hpr with hpi | hpo
            · rcases Finset.mem_insert.mp hpi with rfl | hpd
              · exact absurd (Relation.TransGen.single hp) (hacyc p)
              · rcases (hdoneBG p).mp hpd with hpb | hpg
                · exact Or.inl hpb
                · exact absurd
                    (Relation.TransGen.tail (hgrey p hpg m (by simp)) hp)
                    (hacyc p)
            · exact Or.inr hpo
          have hr12U : (orderModels g names fuel (g m) (insert m done)).2 ⊆ U := by
            intro x hx
            rcases (s2 x).mp hx with hxd | hxout
            · exact hinsU hxd
            · exact (s5 x hxout).2
          have hr12Card : U.card ≤ (fuel + 1) +
              (orderModels g names fuel (g m) (insert m done)).2.card := by
            have h1 : (insert m done).card = done.card + 1 :=
              Finset.card_insert_of_not_mem hmem
            have h2 : (insert m done).card ≤
                (orderModels g names fuel (g m) (insert m done)).2.card :=
              Finset.card_le_card s1
            omega
          obtain ⟨Q1, Q2⟩ := ihms
            (orderModels g names fuel (g m) (insert m done)).2
            (m :: (orderModels g names fuel (g m) (insert m done)).1 ++ black)
            grey
            (fun x hx => hms x (by simp [hx]))
            hr12U
            hr12Card
            (by
              intro x
              rw [s2 x, Finset.mem_insert, hdoneBG x]
              simp only [List.mem_cons, List.mem_append]
              tauto)
            (by
              intro b hb p hp hn
              have hgoal : p ∈ black ∨
                  p ∈ (orderModels g names fuel (g m) (insert m done)).1 →
                  p ∈ m :: (orderModels g names fuel (g m) (insert m done)).1 ++
                    black := by
                intro h
                rcases h with h | h
                · exact List.mem_cons_of_mem _ (List.mem_append_right _ h)
                · exact List.mem_cons_of_mem _ (List.mem_append_left _ h)
              rcases List.mem_cons.mp hb with rfl | hb'
              · exact hgoal (hparents p hp hn)
              · rcases List.mem_append.mp hb' with hb1 | hb2
                · exact hgoal (P2 b (Or.inr hb1) p hp hn)
                · exact hgoal (P2 b (Or.inl hb2) p hp hn))
            (fun gr hgr x hx => hgrey gr hgr x (by simp [hx]))
          constructor
          · show topoOK g names black
              ((orderModels g names fuel (g m) (insert m done)).1 ++ m ::
                (orderModels g names (fuel + 1) ms
                  (orderModels g names fuel (g m) (insert m done)).2).1)
            apply topoOK_append g names _ _ _ P1
            refine ⟨?_, ?_⟩
            · intro p hp hn
              rcases hparents p hp hn with h | h
              · exact List.mem_append_right _ h
              · exact List.mem_append_left _ (List.mem_reverse.mpr h)
            · apply topoOK_congr g names _
                (m :: (orderModels g names fuel (g m) (insert m done)).1 ++ black)
              · intro y
                simp only [List.mem_cons, List.mem_append, List.mem_reverse]
                tauto
              · exact Q1
          · intro b hb p hp hn
            have hb' : b ∈ (m ::
                (orderModels g names fuel (g m) (insert m done)).1 ++ black) ∨
                b ∈ (orderModels g names (fuel + 1) ms
                  (orderModels g names fuel (g m) (insert m done)).2).1 := by
              rcases hb with hb | hb
              · exact Or.inl (List.mem_cons_of_mem _ (List.mem_append_right _ hb))
              · rcases List.mem_append.mp hb with h1 | h1
                · exact Or.inl (List.mem_cons_of_mem _ (List.mem_append_left _ h1))
                · rcases List.mem_cons.mp h1 with rfl | h2
                  · exact Or.inl (List.mem_cons_self _ _)
                  · exact Or.inr h2
            rcases Q2 b hb' p hp hn with h | h
            · rcases List.mem_cons.mp h with rfl | h'
              · exact Or.inr (List.mem_append_right _ (List.mem_cons_self _ _))
              · rcases List.mem_append.mp h' with h1 | h2
                · exact Or.inr (List.mem_append_left _ h1)
                · exact Or.inl h2
            · exact Or.inr (List.mem_append_right _ (List.mem_cons_of_mem _ h))

theorem orderModels_done_output_nil (g : Nat → List Nat)
    (names : Nat → Option String) :
    ∀ (fuel : Nat) (ms : List Nat) (done : Finset Nat),
      (∀ x ∈ ms, (names x).isSome → x ∈ done) →
      (orderModels g names fuel ms done).1 = [] := by
  intro fuel
  induction fuel with
  | zero =>
    intro ms done _
    rfl
  | succ fuel ihf =>
    intro ms
    induction ms with
    | nil =>
      intro done _
      rfl
    | cons m ms ihms =>
      intro done h
      by_cases hnm : (names m).isNone
      · have hGo : orderModels g names (fuel + 1) (m :: ms) done =
            orderModels g names (fuel + 1) ms done := by
          show (if (names m).isNone then _ else _) = _
          rw [if_pos hnm]
          rfl
        rw [hGo]
        exact ihms done (fun x hx hn => h x (by simp [hx]) hn)
      · have hmem : m ∈ done := by
          apply h m (by simp)
          cases hn : names m with
          | none => exact absurd (by rw [hn]; rfl) hnm
          | some v => rfl
        have hGo : orderModels g names (fuel + 1) (m :: ms) done =
            orderModels g names (fuel + 1) ms done := by
          show (if (names m).isNone then _ else _) = _
          rw [if_neg hnm, if_pos hmem]
          rfl
        rw [hGo]
        exact ihms done (fun x hx hn => h x (by simp [hx]) hn)

/-- C9: `order_models` keeps its visited set in a function-level mutable
default argument shared across all invocations and instances (modelled
here by threading the final visited set of the first call into the
second).  After a first full call over a model list has been consumed, a
second call with the same models and the carried-over visited set yields
the empty sequence, for any recursion allowance of the second call. -/
theorem c9_second_call_empty (M : List PyModel) (fuel2 : Nat)
    (hclosed : ∀ u ∈ idsOf M, ∀ q ∈ gOf M u, q ∈ idsOf M) :
    (orderModels (gOf M) (nameOf M) fuel2 (idsOf M)
      (orderModelsTop M).2).1 = [] := by
  have hU : ∀ u ∈ (idsOf M).toFinset, ∀ q ∈ gOf M u,
      q ∈ (idsOf M).toFinset := by
    intro u hu q hq
    exact List.mem_toFinset.mpr (hclosed u (List.mem_toFinset.mp hu) q hq)
  obtain ⟨a1, a2, a3, a4, a5, a6⟩ := orderModels_spec (gOf M) (nameOf M)
    (idsOf M).toFinset hU M.length (idsOf M) ∅
    (fun x hx => List.mem_toFinset.mpr hx)
    (Finset.empty_subset _)
    (by
      have h1 := List.toFinset_card_le (idsOf M)
      have h2 : (idsOf M).length = M.length := by simp [idsOf]
      simpa using le_trans h1 (le_of_eq h2))
  exact orderModels_done_output_nil (gOf M) (nameOf M) fuel2 (idsOf M)
    (orderModelsTop M).2 (fun x hx hn => a6 x hx hn)

/-- Witness for C9: on the two demo models, a second call with the
visited set left behind by the first call emits nothing. -/
theorem c9_second_call_empty_witness :
    (orderModels (gOf demoModels) (nameOf demoModels) 2 (idsOf demoModels)
      (orderModelsTop demoModels).2).1 = [] :=
  c9_second_call_empty demoModels 2 (by decide)

theorem topoOK_earlier (g : Nat → List Nat) (names : Nat → Option String) :
    ∀ (l black : List Nat), topoOK g names black l →
      ∀ j x, l.get? j = some x → ∀ p ∈ g x, (names p).isSome →
        p ∈ black ∨ ∃ i, i < j ∧ l.get? i = some p := by
  intro l
  induction l with
  | nil =>
    intro black _ j x hx
    simp at hx
  | cons y l ih =>
    intro black h j x hx p hp hn
    obtain ⟨h1, h2⟩ := h
    cases j with
    | zero =>
      have hxy : y = x := Option.some.inj hx
      subst hxy
      exact Or.inl (h1 p hp hn)
    | succ j =>
      rcases ih (y :: black) h2 j x hx p hp hn with hpb | ⟨i, hi, hgi⟩
      · rcases List.mem_cons.mp hpb with rfl | hpb'
        · exact Or.inr ⟨0, Nat.succ_pos j, rfl⟩
        · exact Or.inl hpb'
      · exact Or.inr ⟨i + 1, by omega, hgi⟩

theorem mem_exists_get? {x : Nat} :
    ∀ {l : List Nat}, x ∈ l → ∃ j, l.get? j = some x := by
  intro l
  induction l with
  | nil =>
    intro h
    simp at h
  | cons y l ih =>
    intro h
    rcases List.mem_cons.mp h with rfl | h'
    · exact ⟨0, rfl⟩
    · obtain ⟨j, hj⟩ := ih h'
      exact ⟨j + 1, hj⟩

/-- C1: whenever the foreign-key graph over the models is acyclic and no
referenced model is excluded by the name-mapping function, the dependency
orderer emits the model owning a relationship's parent (`from`) field
strictly before the model owning its child (`to`) field: `ordered_models`
is a valid topological order. -/
theorem c1_parent_precedes (M : List PyModel) (c : PyModel) (p : Nat)
    (hc : c ∈ M)
    (hedge : p ∈ gOf M c.id)
    (hclosed : ∀ u ∈ idsOf M, ∀ q ∈ gOf M u, q ∈ idsOf M)
    (hnames : ∀ u ∈ idsOf M, (nameOf M u).isSome)
    (hacyc : AcyclicG (gOf M)) :
    (orderedModels M).Nodup ∧
    ∃ i j, i < j ∧ (orderedModels M).get? i = some p ∧
      (orderedModels M).get? j = some c.id := by
  have hcid : c.id ∈ idsOf M := List.mem_map.mpr ⟨c, hc, rfl⟩
  have hpid : p ∈ idsOf M := hclosed c.id hcid p hedge
  have hU : ∀ u ∈ (idsOf M).toFinset, ∀ q ∈ gOf M u,
      q ∈ (idsOf M).toFinset := by
    intro u hu q hq
    exact List.mem_toFinset.mpr (hclosed u (List.mem_toFinset.mp hu) q hq)
  have hmsU : ∀ x ∈ idsOf M, x ∈ (idsOf M).toFinset :=
    fun x hx => List.mem_toFinset.mpr hx
  have hcard : (idsOf M).toFinset.card ≤
      M.length + (∅ : Finset Nat).card := by
    have h1 := List.toFinset_card_le (idsOf M)
    have h2 : (idsOf M).length = M.length := by simp [idsOf]
    simpa using le_trans h1 (le_of_eq h2)
  obtain ⟨a1, a2, a3, a4, a5, a6⟩ := orderModels_spec (gOf M) (nameOf M)
    (idsOf M).toFinset hU M.length (idsOf M) ∅ hmsU
    (Finset.empty_subset _) hcard
  obtain ⟨T1, T2⟩ := orderModels_topo (gOf M) (nameOf M) (idsOf M).toFinset
    hU hacyc M.length (idsOf M) ∅ [] [] hmsU (Finset.empty_subset _) hcard
    (by intro x; simp)
    (by intro b hb; simp at hb)
    (by intro gr hgr; simp at hgr)
  have hcout : c.id ∈ orderedModels M := by
    have h1 : c.id ∈ (orderModels (gOf M) (nameOf M) M.length
        (idsOf M) ∅).2 := a6 c.id hcid (hnames c.id hcid)
    rcases (a2 c.id).mp h1 with h2 | h2
    · exact absurd h2 (Finset.not_mem_empty c.id)
    · exact h2
  obtain ⟨j, hj⟩ := mem_exists_get? hcout
  have hpos := topoOK_earlier (gOf M) (nameOf M) (orderedModels M) [] T1
    j c.id hj p hedge (hnames p hpid)
  rcases hpos with h | ⟨i, hi, hgi⟩
  · exact absurd h (List.not_mem_nil p)
  · exact ⟨a4, i, j, hi, hgi, hj⟩

/-- Witness for C1: the demo pair Article (id 0) → Reporter (id 1):
Reporter is emitted strictly before Article. -/
theorem c1_parent_precedes_witness :
    (orderedModels demoModels).Nodup ∧
    ∃ i j, i < j ∧ (orderedModels demoModels).get? i = some 1 ∧
      (orderedModels demoModels).get? j =
        some (⟨0, some "Article", [1]⟩ : PyModel).id :=
  c1_parent_precedes demoModels ⟨0, some "Article", [1]⟩ 1 (by decide)
    (by decide) (by decide) (by decide)
    (acyclic_of_rank (gOf demoModels) (fun n => if n = 0 then 1 else 0)
      (by
        intro a b hb
        by_cases h0 : a = 0
        · subst h0
          simp [gOf, demoModels, List.find?] at hb
          subst hb
          decide
        · by_cases h1 : a = 1
          · subst h1
            simp [gOf, demoModels, List.find?] at hb
          · have h0' : ¬ ((0 : Nat) = a) := fun e => h0 e.symm
            have h1' : ¬ ((1 : Nat) = a) := fun e => h1 e.symm
            simp [gOf, demoModels, List.find?, h0', h1'] at hb))

end Mdb2Django
